import Mathlib

/-!
# Demo Task Manager API (`src/server.js`)

A shallow embedding of the task routes of `src/server.js` and the properties
of the in-memory store they maintain.

Conventions of the embedding.

* A request body arrives parsed by `express.json()`; the handlers destructure
  it, so a body is the record of the destructured fields, each a JSON value or
  `undefined` when the field is absent.
* `new Date().toISOString()` is a clock reading; it is an explicit argument
  (`now`) of every handler that stamps a record.
* `parseInt(req.params.id)` is taken as the integer it yields.  When it yields
  `NaN` no record matches, exactly as for an integer no record has.
* JavaScript numbers are modelled by unbounded integers: the id counter is
  exact below `2 ^ 53`, far beyond any run of the process, and the handlers
  use a number of the body only through its truthiness and through strict
  equality with strings.  The one computation on fractions, the completion
  rate of the stats route, is modelled by exact double arithmetic.
* A handler that throws (a `TypeError` from `title.trim()` on a non-string)
  is answered by Express with status 500; nothing was assigned before the
  throw.
-/

namespace TaskApi

/-! ## JavaScript values -/

/-- A JSON value of a request body; `undefined` stands for an absent field. -/
inductive JsVal where
  | undefined
  | null
  | bool (b : Bool)
  | num (n : Int)
  | str (s : String)
  | arr (items : List JsVal)
  | obj (fields : List (String × JsVal))

/-- JavaScript truthiness (`Boolean(v)`, and the test made by `!v`, `v && _`,
`v || _`): `undefined`, `null`, `false`, `0` and `''` are falsy, everything
else, arrays and objects included, is truthy. -/
def JsVal.truthy : JsVal → Bool
  | .undefined => false
  | .null => false
  | .bool b => b
  | .num n => n != 0
  | .str s => s != ""
  | .arr _ => true
  | .obj _ => true

/-- The expression `v || d`. -/
def JsVal.orElse (v d : JsVal) : JsVal :=
  if v.truthy then v else d

/-- The code points removed by `String.prototype.trim`: ECMAScript WhiteSpace
(TAB, VT, FF, ZWNBSP and the Unicode space separators) and LineTerminator
(LF, CR, LS, PS). -/
def isWhiteSpace (c : Char) : Bool :=
  [0x09, 0x0A, 0x0B, 0x0C, 0x0D, 0x20, 0xA0, 0x1680,
   0x2000, 0x2001, 0x2002, 0x2003, 0x2004, 0x2005, 0x2006, 0x2007, 0x2008, 0x2009, 0x200A,
   0x2028, 0x2029, 0x202F, 0x205F, 0x3000, 0xFEFF].contains c.toNat

/-- The method `String.prototype.trim`: leading and trailing white space removed. -/
def trim (s : String) : String :=
  ⟨(s.data.dropWhile isWhiteSpace).rdropWhile isWhiteSpace⟩

/-- The call `v.trim()` on a value of a request body: the trimmed string for a
string, and `none` for a `TypeError` (no other truthy JSON value has a callable
`trim`). -/
def JsVal.trim? : JsVal → Option String
  | .str s => some (trim s)
  | _ => none

/-- The call `xs.includes(v)` on an array of strings: strict equality with one
of its elements. -/
def includes (xs : List String) (v : JsVal) : Bool :=
  match v with
  | .str s => xs.contains s
  | _ => false

/-! ## The store -/

/-- A task record.  `description` and `priority` hold whatever value the
handlers stored; `updatedAt` is `none` while the record has no such property. -/
structure Task where
  id : Int
  title : String
  description : JsVal
  completed : Bool
  priority : JsVal
  createdAt : String
  updatedAt : Option String

/-- The module state: the `tasks` array and the `nextId` counter. -/
structure Store where
  tasks : List Task
  nextId : Int

/-- The state at start-up (lines 12-18); `c1 c2 c3` are the three clock
readings stamped on the seed records. -/
def initialStore (c1 c2 c3 : String) : Store where
  tasks :=
    [ { id := 1, title := "Learn API Testing", description := .str "Master Bruno and Postman",
        completed := false, priority := .str "high", createdAt := c1, updatedAt := none },
      { id := 2, title := "Build Demo API", description := .str "Create a testable REST API",
        completed := true, priority := .str "medium", createdAt := c2, updatedAt := none },
      { id := 3, title := "Write Documentation", description := .str "Document all endpoints",
        completed := false, priority := .str "low", createdAt := c3, updatedAt := none } ]
  nextId := 4

/-- The destructured fields of a request body. -/
structure Body where
  title : JsVal
  description : JsVal
  completed : JsVal
  priority : JsVal

/-- The query parameters read by the list route. -/
structure Query where
  completed : JsVal
  priority : JsVal
  search : JsVal

/-- A response: the status code with the JSON payload of a success, or the
status code with the `error` string of a failure. -/
inductive Reply (α : Type) where
  | ok (status : Nat) (payload : α)
  | err (status : Nat) (error : String)

/-- The response is a failure. -/
def Reply.isErr {α : Type} : Reply α → Bool
  | .ok _ _ => false
  | .err _ _ => true

/-- The 404 response of the task routes. -/
def notFound {α : Type} : Reply α := .err 404 "Not Found"

/-- The 400 response of the task routes. -/
def badRequest {α : Type} : Reply α := .err 400 "Bad Request"

/-- The 401 response of `authMiddleware`. -/
def unauthorized {α : Type} : Reply α := .err 401 "Unauthorized"

/-- The response Express gives when a handler throws. -/
def serverError {α : Type} : Reply α := .err 500 "Internal Server Error"

/-- The method `Array.prototype.findIndex`, `none` standing for `-1`. -/
def findIndex (p : Task → Bool) : List Task → Option Nat
  | [] => none
  | t :: ts => if p t then some 0 else (findIndex p ts).map (· + 1)

/-- Assignment through the reference returned by `tasks.find(p)`: the first
record satisfying `p` is rewritten by `f`, in place. -/
def updateFirst (p : Task → Bool) (f : Task → Task) : List Task → List Task
  | [] => []
  | t :: ts => if p t then f t :: ts else t :: updateFirst p f ts

/-! ## The handlers -/

/-- The array `validPriorities` (line 151). -/
def validPriorities : List String := ["low", "medium", "high"]

/-- The route `GET /api/tasks/:id` (lines 131-140). -/
def getTask (s : Store) (id : Int) : Reply Task :=
  match s.tasks.find? (fun t => t.id == id) with
  | none => notFound
  | some task => .ok 200 task

/-- The route `POST /api/tasks` (lines 143-170): the response and the state
after the call. -/
def createTask (s : Store) (body : Body) (now : String) : Reply Task × Store :=
  if !body.title.truthy then (badRequest, s)
  else
    match body.title.trim? with
    | none => (serverError, s)
    | some title =>
      if title = "" then (badRequest, s)
      else if body.priority.truthy && !includes validPriorities body.priority then
        (badRequest, s)
      else
        let newTask : Task :=
          { id := s.nextId
            title := title
            description := body.description.orElse (.str "")
            completed := false
            priority := body.priority.orElse (.str "medium")
            createdAt := now
            updatedAt := none }
        (.ok 201 newTask, { tasks := s.tasks ++ [newTask], nextId := s.nextId + 1 })

/-- The route `PUT /api/tasks/:id` (lines 173-197).  The index returned by
`findIndex` is always in range, so the last branch is never taken. -/
def replaceTask (s : Store) (id : Int) (body : Body) (now : String) : Reply Task × Store :=
  match findIndex (fun t => t.id == id) s.tasks with
  | none => (notFound, s)
  | some taskIndex =>
    if !body.title.truthy then (badRequest, s)
    else
      match body.title.trim? with
      | none => (serverError, s)
      | some title =>
        if title = "" then (badRequest, s)
        else
          match s.tasks[taskIndex]? with
          | some old =>
            let updated : Task :=
              { old with
                title := title
                description := body.description.orElse (.str "")
                completed := body.completed.truthy
                priority := body.priority.orElse (.str "medium")
                updatedAt := some now }
            (.ok 200 updated, { s with tasks := s.tasks.set taskIndex updated })
          | none => (serverError, s)

/-- The route `PATCH /api/tasks/:id/toggle` (lines 200-212). -/
def toggleTask (s : Store) (id : Int) (now : String) : Reply Task × Store :=
  match s.tasks.find? (fun t => t.id == id) with
  | none => (notFound, s)
  | some task =>
    let toggled (t : Task) : Task :=
      { t with completed := !t.completed, updatedAt := some now }
    (.ok 200 (toggled task),
      { s with tasks := updateFirst (fun t => t.id == id) toggled s.tasks })

/-- The route `DELETE /api/tasks/:id` (lines 215-225); the payload is the
`deleted` record. -/
def deleteTask (s : Store) (id : Int) : Reply Task × Store :=
  match findIndex (fun t => t.id == id) s.tasks with
  | none => (notFound, s)
  | some taskIndex =>
    match s.tasks[taskIndex]? with
    | some deleted => (.ok 200 deleted, { s with tasks := s.tasks.eraseIdx taskIndex })
    | none => (serverError, s)

/-- The check of `authMiddleware` (lines 21-28) on the value of the
`x-api-key` header, `none` when the header is absent. -/
def authMiddleware (apiKey : Option String) : Bool :=
  apiKey == some "demo-key-12345"

/-! ### Double arithmetic of the completion rate

The rate is `((completed / total) * 100).toFixed(1) + '%'`, computed on IEEE
754 doubles.  The doubles met here are finite and not negative; each is
modelled by the fraction `num / den` it is equal to, and an operation returns
the double nearest to its exact result, ties going to the even significand. -/

/-- The quotient `a / b` rounded to the nearest integer, ties to even. -/
def roundHalfEven (a b : Nat) : Nat :=
  if 2 * (a % b) < b then a / b
  else if b < 2 * (a % b) then a / b + 1
  else if (a / b) % 2 = 0 then a / b
  else a / b + 1

/-- Scales the fraction `a / b` by a power of two into the range of a 53-bit
significand, `2 ^ 52 ≤ a / b < 2 ^ 53`, by doubling `a` or `b`. -/
def normalize : Nat → Nat → Nat → Nat × Nat
  | 0, a, b => (a, b)
  | fuel + 1, a, b =>
    if a < 2 ^ 52 * b then normalize fuel (2 * a) b
    else if 2 ^ 53 * b ≤ a then normalize fuel a (2 * b)
    else (a, b)

/-- A finite double that is not negative, as the fraction `num / den`. -/
structure Double where
  num : Nat
  den : Nat

/-- The double nearest to the fraction `a / b`, for a quotient in the range of
the normal doubles: the scaled fraction is rounded to a 53-bit significand and
scaled back.  The fuel `a + b + 53` is more than the scaling ever takes. -/
def nearestDouble (a b : Nat) : Double :=
  if a = 0 then ⟨0, 1⟩
  else
    let n := normalize (a + b + 53) a b
    ⟨roundHalfEven n.1 n.2 * a * n.2, b * n.1⟩

/-- The division `a / b` of two integers that are exact doubles. -/
def fdiv (a b : Nat) : Double := nearestDouble a b

/-- The product `x * k` of a double with an integer that is an exact double. -/
def fmul (x : Double) (k : Nat) : Double := nearestDouble (x.num * k) x.den

/-- The integer `k` chosen by `x.toFixed(1)`: the one for which `k / 10` is
nearest to `x`, the larger when two are as near. -/
def tenths (x : Double) : Nat := (20 * x.num + x.den) / (2 * x.den)

/-- The method call `x.toFixed(1)`: the decimal digits of `tenths x` with a
point before the last one. -/
def toFixed1 (x : Double) : String :=
  Nat.repr (tenths x / 10) ++ "." ++ Nat.repr (tenths x % 10)

/-- The `completionRate` of the stats body (lines 241-243). -/
def completionRate (s : Store) : String :=
  if s.tasks.length > 0 then
    toFixed1 (fmul (fdiv (s.tasks.filter (fun t => t.completed)).length s.tasks.length) 100)
      ++ "%"
  else "0%"

/-- The stats body (lines 232-244); `high`, `medium` and `low` are the fields
of `byPriority`. -/
structure Stats where
  total : Nat
  completed : Nat
  pending : Nat
  high : Nat
  medium : Nat
  low : Nat
  completionRate : String

/-- The strict comparison `t.priority === p` with a string literal `p`. -/
def Task.priorityIs (p : String) (t : Task) : Bool :=
  match t.priority with
  | .str q => q == p
  | _ => false

/-- The object computed by the stats handler. -/
def stats (s : Store) : Stats where
  total := s.tasks.length
  completed := (s.tasks.filter (fun t => t.completed)).length
  pending := (s.tasks.filter (fun t => !t.completed)).length
  high := (s.tasks.filter (Task.priorityIs "high")).length
  medium := (s.tasks.filter (Task.priorityIs "medium")).length
  low := (s.tasks.filter (Task.priorityIs "low")).length
  completionRate := completionRate s

/-- The route `GET /api/protected/stats` (lines 231-247): `authMiddleware`
first, then the handler.  Neither assigns `tasks` or `nextId`. -/
def statsRoute (s : Store) (apiKey : Option String) : Reply Stats × Store :=
  if authMiddleware apiKey then (.ok 200 (stats s), s) else (unauthorized, s)

/-! ## Runs of the service -/

/-- A request to one of the routes over the store. -/
inductive Op where
  | list (query : Query)
  | get (id : Int)
  | create (body : Body) (now : String)
  | replace (id : Int) (body : Body) (now : String)
  | toggle (id : Int) (now : String)
  | delete (id : Int)
  | stats (apiKey : Option String)

/-- The state after a request.  The list and get routes only read. -/
def step (s : Store) : Op → Store
  | .list _ => s
  | .get _ => s
  | .create body now => (createTask s body now).2
  | .replace id body now => (replaceTask s id body now).2
  | .toggle id now => (toggleTask s id now).2
  | .delete id => (deleteTask s id).2
  | .stats apiKey => (statsRoute s apiKey).2

/-- The state after a sequence of requests, handled one after the other. -/
def run (s : Store) (ops : List Op) : Store :=
  ops.foldl step s

/-- The ids of the records of a state, in collection order. -/
def Store.ids (s : Store) : List Int :=
  s.tasks.map (fun t => t.id)

/-- The id a request creates: the id of the record returned by a successful
create, `none` for every other request and for a failing create. -/
def createdId (s : Store) : Op → Option Int
  | .create body now =>
    match (createTask s body now).1 with
    | .ok _ t => some t.id
    | .err _ _ => none
  | _ => none

/-- The ids returned by the successful creates of a run, in the order of the
calls. -/
def createdIds (s : Store) : List Op → List Int
  | [] => []
  | op :: ops => (createdId s op).toList ++ createdIds (step s op) ops

/-- The ids of every record of every state a run goes through, the first and
the last state included: the ids that were ever in the collection. -/
def everIds (s : Store) : List Op → List Int
  | [] => s.ids
  | op :: ops => s.ids ++ everIds (step s op) ops

/-- The invariant behind id uniqueness: the ids are pairwise different and
all below the counter. -/
def IdsFresh (s : Store) : Prop :=
  s.ids.Nodup ∧ ∀ i ∈ s.ids, i < s.nextId

/-- The value is one of the three priorities of the data model. -/
def IsPriority (v : JsVal) : Prop :=
  v = .str "low" ∨ v = .str "medium" ∨ v = .str "high"

/-- A title as the data model wants it: not empty, holding a character that
is not white space, and with no white space at its start or at its end. -/
def TitleClean (t : String) : Prop :=
  t ≠ "" ∧ (∃ c ∈ t.data, isWhiteSpace c = false) ∧
    (∀ c, t.data.head? = some c → isWhiteSpace c = false) ∧
    (∀ c, t.data.getLast? = some c → isWhiteSpace c = false)

/-! ## The list route -/

/-- Strict equality `a === b` of a stored value with a value of another
request: primitives compare by value, and an array or an object is a fresh
object, identical to no other value. -/
def JsVal.strictEq : JsVal → JsVal → Bool
  | .undefined, .undefined => true
  | .null, .null => true
  | .bool a, .bool b => a == b
  | .num a, .num b => a == b
  | .str a, .str b => a == b
  | _, _ => false

/-- The method `String.prototype.includes` on the characters of two strings:
`needle` occurs in the text as a contiguous run. -/
def includesStr (needle : List Char) : List Char → Bool
  | [] => needle.isEmpty
  | c :: cs => needle.isPrefixOf (c :: cs) || includesStr needle cs

/-- The body of the list response: `count` and `tasks`. -/
structure Listing where
  count : Nat
  tasks : List Task

/-- The route `GET /api/tasks` (lines 104-128).  `toLowerCase` is the method
`String.prototype.toLowerCase`, the Unicode lower-casing of the runtime; a
truthy `search` that is not a string (an array or object built by the query
parser) has no such method and the handler throws. -/
def listTasks (toLowerCase : String → String) (s : Store) (q : Query) : Reply Listing :=
  let result := s.tasks
  let result :=
    match q.completed with
    | .undefined => result
    | v =>
      let isCompleted := v.strictEq (.str "true")
      result.filter (fun t => t.completed == isCompleted)
  let result :=
    if q.priority.truthy then result.filter (fun t => t.priority.strictEq q.priority)
    else result
  if q.search.truthy then
    match q.search with
    | .str x =>
      let search := toLowerCase x
      let result := result.filter (fun t => includesStr search.data (toLowerCase t.title).data)
      .ok 200 { count := result.length, tasks := result }
    | _ => serverError
  else .ok 200 { count := result.length, tasks := result }

/-- Lower-casing of the ASCII letters, which is what `toLowerCase` does on a
string of ASCII characters. -/
def asciiLower (x : String) : String :=
  ⟨x.data.map Char.toLower⟩

/-- The id a request stamps with `updatedAt`: the id of a successful replace
or toggle, `none` for every other request and for a failing one. -/
def touchedId (s : Store) : Op → Option Int
  | .replace id body now =>
    match (replaceTask s id body now).1 with
    | .ok _ _ => some id
    | .err _ _ => none
  | .toggle id now =>
    match (toggleTask s id now).1 with
    | .ok _ _ => some id
    | .err _ _ => none
  | _ => none

/-- The ids of the successful replace and toggle requests of a run. -/
def touchedIds (s : Store) : List Op → List Int
  | [] => []
  | op :: ops => (touchedId s op).toList ++ touchedIds (step s op) ops

/-- A query whose three parameters are absent (`none`) or strings. -/
def Query.ofStrings (completed priority search : Option String) : Query where
  completed := match completed with
    | none => .undefined
    | some v => .str v
  priority := match priority with
    | none => .undefined
    | some v => .str v
  search := match search with
    | none => .undefined
    | some v => .str v

/-- The invariant behind `updatedAt`: ids are fresh, a record carries
`updatedAt` exactly when its id is in the list `touched`, and every id of
that list is below the counter. -/
def Stamped (s : Store) (touched : List Int) : Prop :=
  IdsFresh s ∧ (∀ t ∈ s.tasks, t.updatedAt ≠ none ↔ t.id ∈ touched) ∧
    ∀ i ∈ touched, i < s.nextId

/-- The string is made of ASCII characters. -/
def isAscii (x : String) : Prop :=
  ∀ c ∈ x.data, c.toNat < 128

/-- The string `x` occurs in `text` ignoring letter case: a contiguous run of
`text` equals `x` character by character up to the case of the letters A to
Z. -/
def occursIgnoringCase (x text : String) : Prop :=
  ∃ run, run <:+: text.data ∧ List.Forall₂ (fun a b => a.toLower = b.toLower) x.data run

/-! ## Lists -/

theorem map_set_same {α β : Type} (f : α → β) (u old : α) :
    ∀ (l : List α) (i : Nat), l[i]? = some old → f u = f old →
      (l.set i u).map f = l.map f := by
  intro l
  induction l with
  | nil => intro i h; simp at h
  | cons a l ih =>
    intro i h hf
    cases i with
    | zero =>
      simp only [List.getElem?_cons_zero, Option.some.injEq] at h
      simp [hf, h]
    | succ i =>
      simp only [List.getElem?_cons_succ] at h
      simp [ih i h hf]

theorem map_eraseIdx_comm {α β : Type} (f : α → β) :
    ∀ (l : List α) (i : Nat), (l.eraseIdx i).map f = (l.map f).eraseIdx i := by
  intro l
  induction l with
  | nil => intro i; simp
  | cons a l ih =>
    intro i
    cases i with
    | zero => simp
    | succ i => simp [ih i]

theorem findIndex_eq_none {p : Task → Bool} :
    ∀ {l : List Task}, findIndex p l = none ↔ ∀ t ∈ l, p t = false := by
  intro l
  induction l with
  | nil => simp [findIndex]
  | cons a l ih =>
    by_cases h : p a = true
    · simp [findIndex, h]
    · simp only [Bool.not_eq_true] at h
      simp [findIndex, h, ih]

theorem findIndex_eq_some {p : Task → Bool} :
    ∀ {l : List Task} {i : Nat}, findIndex p l = some i →
      ∃ t, l[i]? = some t ∧ p t = true ∧ ∀ j u, j < i → l[j]? = some u → p u = false := by
  intro l
  induction l with
  | nil => intro i h; simp [findIndex] at h
  | cons a l ih =>
    intro i h
    by_cases hp : p a = true
    · simp only [findIndex, hp, if_true, Option.some.injEq] at h
      subst h
      exact ⟨a, by simp, hp, by intro j u hj; omega⟩
    · simp only [Bool.not_eq_true] at hp
      simp only [findIndex, hp, Bool.false_eq_true, if_false, Option.map_eq_some'] at h
      obtain ⟨k, hk, rfl⟩ := h
      obtain ⟨t, ht, hpt, hlt⟩ := ih hk
      refine ⟨t, by simpa using ht, hpt, ?_⟩
      intro j u hj hu
      cases j with
      | zero =>
        simp only [List.getElem?_cons_zero, Option.some.injEq] at hu
        subst hu; exact hp
      | succ j =>
        simp only [List.getElem?_cons_succ] at hu
        exact hlt j u (by omega) hu

theorem updateFirst_map {β : Type} (g : Task → β) (p : Task → Bool) (f : Task → Task)
    (hf : ∀ t, g (f t) = g t) : ∀ l : List Task, (updateFirst p f l).map g = l.map g := by
  intro l
  induction l with
  | nil => rfl
  | cons a l ih =>
    by_cases h : p a = true
    · simp [updateFirst, h, hf]
    · simp [updateFirst, h, ih]

/-! ## The effect of one request on the ids and on the counter -/

theorem createTask_cases (s : Store) (body : Body) (now : String) :
    (∃ st e, createTask s body now = (.err st e, s)) ∨
    (∃ t : Task, t.id = s.nextId ∧
      createTask s body now = (.ok 201 t, { tasks := s.tasks ++ [t], nextId := s.nextId + 1 })) := by
  unfold createTask
  split
  · exact Or.inl ⟨_, _, rfl⟩
  · split
    · exact Or.inl ⟨_, _, rfl⟩
    · split
      · exact Or.inl ⟨_, _, rfl⟩
      · split
        · exact Or.inl ⟨_, _, rfl⟩
        · exact Or.inr ⟨_, rfl, rfl⟩

theorem replaceTask_ids (s : Store) (id : Int) (body : Body) (now : String) :
    (replaceTask s id body now).2.ids = s.ids ∧
      (replaceTask s id body now).2.nextId = s.nextId := by
  unfold replaceTask
  split
  · exact ⟨rfl, rfl⟩
  · split
    · exact ⟨rfl, rfl⟩
    · split
      · exact ⟨rfl, rfl⟩
      · split
        · exact ⟨rfl, rfl⟩
        · split
          · next old hold =>
            refine ⟨?_, rfl⟩
            dsimp only [Store.ids]
            exact map_set_same (fun t : Task => t.id) _ old _ _ hold rfl
          · exact ⟨rfl, rfl⟩

theorem toggleTask_ids (s : Store) (id : Int) (now : String) :
    (toggleTask s id now).2.ids = s.ids ∧ (toggleTask s id now).2.nextId = s.nextId := by
  unfold toggleTask
  split
  · exact ⟨rfl, rfl⟩
  · refine ⟨?_, rfl⟩
    dsimp only [Store.ids]
    apply updateFirst_map (fun t : Task => t.id)
    intro t
    rfl

theorem deleteTask_ids (s : Store) (id : Int) :
    (∃ i, (deleteTask s id).2.ids = s.ids.eraseIdx i) ∧
      (deleteTask s id).2.nextId = s.nextId := by
  unfold deleteTask
  split
  · exact ⟨⟨s.tasks.length, by simp [Store.ids, List.eraseIdx_of_length_le]⟩, rfl⟩
  · next i _ =>
    split
    · exact ⟨⟨i, map_eraseIdx_comm _ _ _⟩, rfl⟩
    · exact ⟨⟨s.tasks.length, by simp [Store.ids, List.eraseIdx_of_length_le]⟩, rfl⟩

/-- What one request does to the ids and to the counter: a successful create
appends the counter value and advances the counter; every other request
leaves the counter alone and keeps the ids or erases one position. -/
theorem step_ids (s : Store) (op : Op) :
    (createdId s op = some s.nextId ∧ (step s op).ids = s.ids ++ [s.nextId] ∧
        (step s op).nextId = s.nextId + 1) ∨
    (createdId s op = none ∧ (∃ i, (step s op).ids = s.ids.eraseIdx i) ∧
        (step s op).nextId = s.nextId) := by
  have keep : ∀ s' : Store, s'.ids = s.ids → ∃ i, s'.ids = s.ids.eraseIdx i := by
    intro s' h
    exact ⟨s.ids.length, by rw [h, List.eraseIdx_of_length_le (le_refl _)]⟩
  cases op with
  | list q => exact Or.inr ⟨rfl, keep _ rfl, rfl⟩
  | get id => exact Or.inr ⟨rfl, keep _ rfl, rfl⟩
  | create body now =>
    rcases createTask_cases s body now with ⟨st, e, h⟩ | ⟨t, ht, h⟩
    · right
      refine ⟨by simp [createdId, h], ?_, by simp [step, h]⟩
      exact keep _ (by simp [step, h])
    · left
      refine ⟨by simp [createdId, h, ht], ?_, by simp [step, h]⟩
      simp [step, h, Store.ids, ht]
  | replace id body now =>
    exact Or.inr ⟨rfl, keep _ (replaceTask_ids s id body now).1, (replaceTask_ids s id body now).2⟩
  | toggle id now =>
    exact Or.inr ⟨rfl, keep _ (toggleTask_ids s id now).1, (toggleTask_ids s id now).2⟩
  | delete id =>
    exact Or.inr ⟨rfl, (deleteTask_ids s id).1, (deleteTask_ids s id).2⟩
  | stats apiKey =>
    have h : (statsRoute s apiKey).2 = s := by unfold statsRoute; split <;> rfl
    exact Or.inr ⟨rfl, keep _ (by simp [step, h]), by simp [step, h]⟩

theorem idsFresh_step (s : Store) (op : Op) (h : IdsFresh s) : IdsFresh (step s op) := by
  obtain ⟨hnd, hlt⟩ := h
  rcases step_ids s op with ⟨_, hids, hn⟩ | ⟨_, ⟨i, hids⟩, hn⟩
  · refine ⟨?_, ?_⟩
    · rw [hids]
      refine List.Nodup.append hnd (List.nodup_singleton _) ?_
      intro a ha hb
      simp only [List.mem_singleton] at hb
      have := hlt a ha
      omega
    · intro a ha
      rw [hids] at ha
      rw [hn]
      rcases List.mem_append.mp ha with ha | ha
      · have := hlt a ha; omega
      · simp only [List.mem_singleton] at ha; omega
  · refine ⟨?_, ?_⟩
    · rw [hids]; exact hnd.sublist (List.eraseIdx_sublist _ _)
    · intro a ha
      rw [hids] at ha
      rw [hn]
      exact hlt a ((List.eraseIdx_sublist _ _).subset ha)

theorem idsFresh_run (ops : List Op) : ∀ s : Store, IdsFresh s → IdsFresh (run s ops) := by
  induction ops with
  | nil => intro s h; exact h
  | cons op ops ih => intro s h; exact ih _ (idsFresh_step s op h)

theorem idsFresh_initialStore (c1 c2 c3 : String) : IdsFresh (initialStore c1 c2 c3) := by
  refine ⟨?_, ?_⟩
  · show ([1, 2, 3] : List Int).Nodup
    decide
  intro i hi
  simp only [initialStore, Store.ids, List.map_cons, List.map_nil, List.mem_cons,
    List.mem_singleton, List.not_mem_nil, or_false] at hi
  show i < 4
  omega

/-! ## Uniqueness of ids -/

/-- C1: in every state reached from the initial state by any sequence of
requests, successful or failing, no two records of the collection have the
same id. -/
theorem ids_unique (c1 c2 c3 : String) (ops : List Op) :
    (run (initialStore c1 c2 c3) ops).tasks.Pairwise (fun a b => a.id ≠ b.id) := by
  have h := (idsFresh_run ops _ (idsFresh_initialStore c1 c2 c3)).1
  unfold Store.ids List.Nodup at h
  exact List.pairwise_map.mp h

/-! ## Ids handed out by create -/

theorem nextId_le_step (s : Store) (op : Op) : s.nextId ≤ (step s op).nextId := by
  rcases step_ids s op with ⟨_, _, hn⟩ | ⟨_, _, hn⟩ <;> omega

theorem nextId_le_run (ops : List Op) : ∀ s : Store, s.nextId ≤ (run s ops).nextId := by
  induction ops with
  | nil => intro s; exact le_refl _
  | cons op ops ih => intro s; exact le_trans (nextId_le_step s op) (ih (step s op))

theorem run_nextId (ops : List Op) :
    ∀ s : Store, (run s ops).nextId = s.nextId + (createdIds s ops).length := by
  induction ops with
  | nil => intro s; simp [run, createdIds]
  | cons op ops ih =>
    intro s
    have h := ih (step s op)
    simp only [run, List.foldl_cons] at h ⊢
    rw [h]
    rcases step_ids s op with ⟨hc, _, hn⟩ | ⟨hc, _, hn⟩
    · simp only [createdIds, hc, hn, Option.toList, List.singleton_append, List.length_cons]
      push_cast
      omega
    · simp only [createdIds, hc, hn, Option.toList, List.nil_append]

theorem createdIds_bounds (ops : List Op) :
    ∀ s : Store, ∀ i ∈ createdIds s ops, s.nextId ≤ i ∧ i < (run s ops).nextId := by
  induction ops with
  | nil => intro s i hi; simp [createdIds] at hi
  | cons op ops ih =>
    intro s i hi
    have hrun : run s (op :: ops) = run (step s op) ops := rfl
    rw [hrun]
    have hmono := nextId_le_run ops (step s op)
    simp only [createdIds, List.mem_append] at hi
    rcases step_ids s op with ⟨hc, _, hn⟩ | ⟨hc, _, hn⟩
    · rcases hi with hi | hi
      · simp only [hc, Option.toList, List.mem_singleton] at hi
        omega
      · have := ih _ i hi
        omega
    · rcases hi with hi | hi
      · simp [hc, Option.toList] at hi
      · have := ih _ i hi
        omega

theorem createdIds_increasing (ops : List Op) :
    ∀ s : Store, (createdIds s ops).Pairwise (fun a b => a < b) := by
  induction ops with
  | nil => intro s; simp [createdIds]
  | cons op ops ih =>
    intro s
    simp only [createdIds]
    refine List.pairwise_append.mpr ⟨?_, ih _, ?_⟩
    · cases createdId s op <;> simp [Option.toList]
    · intro a ha b hb
      have hb := (createdIds_bounds ops _ b hb).1
      rcases step_ids s op with ⟨hc, _, hn⟩ | ⟨hc, _, hn⟩
      · simp only [hc, Option.toList, List.mem_singleton] at ha
        omega
      · simp [hc, Option.toList] at ha

theorem everIds_lt (ops : List Op) :
    ∀ s : Store, IdsFresh s → ∀ i ∈ everIds s ops, i < (run s ops).nextId := by
  induction ops with
  | nil => intro s h i hi; exact h.2 i hi
  | cons op ops ih =>
    intro s h i hi
    have hrun : run s (op :: ops) = run (step s op) ops := rfl
    rw [hrun]
    simp only [everIds, List.mem_append] at hi
    rcases hi with hi | hi
    · have h1 := h.2 i hi
      have h2 := nextId_le_step s op
      have h3 := nextId_le_run ops (step s op)
      omega
    · exact ih _ (idsFresh_step s op h) i hi

/-- C2: along every run from the initial state the counter is 4 plus the
number of successful creates so far, the ids returned by the successful
creates are strictly increasing in the order of the calls, and a create that
succeeds after the run returns an id greater than every id returned by an
earlier successful create and different from every id that was ever in the
collection, whatever other requests are interleaved. -/
theorem createTask_id_increasing_fresh (c1 c2 c3 : String) (ops : List Op) :
    (run (initialStore c1 c2 c3) ops).nextId
        = 4 + ((createdIds (initialStore c1 c2 c3) ops).length : Int) ∧
    (createdIds (initialStore c1 c2 c3) ops).Pairwise (fun a b => a < b) ∧
    ∀ (body : Body) (now : String) (st : Nat) (T : Task),
      (createTask (run (initialStore c1 c2 c3) ops) body now).1 = .ok st T →
        (∀ i ∈ createdIds (initialStore c1 c2 c3) ops, i < T.id) ∧
        (∀ i ∈ everIds (initialStore c1 c2 c3) ops, i ≠ T.id) := by
  refine ⟨run_nextId ops _, createdIds_increasing ops _, ?_⟩
  intro body now st T hT
  have hid : T.id = (run (initialStore c1 c2 c3) ops).nextId := by
    rcases createTask_cases (run (initialStore c1 c2 c3) ops) body now with
      ⟨st', e, h⟩ | ⟨t, ht, h⟩
    · rw [h] at hT; cases hT
    · rw [h] at hT
      simp only [Reply.ok.injEq] at hT
      rw [← hT.2]; exact ht
  refine ⟨?_, ?_⟩
  · intro i hi
    have := (createdIds_bounds ops _ i hi).2
    omega
  · intro i hi
    have := everIds_lt ops _ (idsFresh_initialStore c1 c2 c3) i hi
    omega

/-- A run with two successful creates, a failing create, a delete of a created
record and other requests in between; the next create returns id 6. -/
theorem createTask_id_increasing_fresh_witness :
    (createTask (run (initialStore "a" "b" "c")
        [.create ⟨.str "A", .undefined, .undefined, .undefined⟩ "t1", .delete 4, .toggle 1 "t2",
         .create ⟨.str " ", .undefined, .undefined, .undefined⟩ "t3", .get 2,
         .create ⟨.str "B", .undefined, .undefined, .undefined⟩ "t4"])
        ⟨.str "C", .undefined, .undefined, .undefined⟩ "t5").1
      = .ok 201 ⟨6, "C", .str "", false, .str "medium", "t5", none⟩ ∧
    ((5 : Int) < 6 ∧ (4 : Int) ≠ 6) :=
  ⟨rfl,
   ((createTask_id_increasing_fresh "a" "b" "c"
        [.create ⟨.str "A", .undefined, .undefined, .undefined⟩ "t1", .delete 4, .toggle 1 "t2",
         .create ⟨.str " ", .undefined, .undefined, .undefined⟩ "t3", .get 2,
         .create ⟨.str "B", .undefined, .undefined, .undefined⟩ "t4"]).2.2
      ⟨.str "C", .undefined, .undefined, .undefined⟩ "t5" 201
      ⟨6, "C", .str "", false, .str "medium", "t5", none⟩ rfl).1 5 (by decide),
   ((createTask_id_increasing_fresh "a" "b" "c"
        [.create ⟨.str "A", .undefined, .undefined, .undefined⟩ "t1", .delete 4, .toggle 1 "t2",
         .create ⟨.str " ", .undefined, .undefined, .undefined⟩ "t3", .get 2,
         .create ⟨.str "B", .undefined, .undefined, .undefined⟩ "t4"]).2.2
      ⟨.str "C", .undefined, .undefined, .undefined⟩ "t5" 201
      ⟨6, "C", .str "", false, .str "medium", "t5", none⟩ rfl).2 4 (by decide)⟩

/-! ## Priorities -/

/-- C3 (fails on the code): from the initial state, the replace request
`PUT /api/tasks/1` with body `{title: "x", priority: "urgent"}` succeeds and
leaves record 1 with priority `"urgent"`, which is none of the three enum
values; the create route rejects the same priority. -/
theorem replaceTask_stores_any_priority :
    (replaceTask (initialStore "a" "b" "c") 1
        ⟨.str "x", .undefined, .undefined, .str "urgent"⟩ "n").1
      = .ok 200 ⟨1, "x", .str "", false, .str "urgent", "a", some "n"⟩ ∧
    (∃ t ∈ (run (initialStore "a" "b" "c")
        [.replace 1 ⟨.str "x", .undefined, .undefined, .str "urgent"⟩ "n"]).tasks,
      ¬ IsPriority t.priority) ∧
    (createTask (initialStore "a" "b" "c")
        ⟨.str "x", .undefined, .undefined, .str "urgent"⟩ "n").1 = badRequest := by
  refine ⟨rfl, ⟨⟨1, "x", .str "", false, .str "urgent", "a", some "n"⟩, ?_, ?_⟩, rfl⟩
  · exact List.mem_cons_self _ _
  · intro h
    rcases h with h | h | h <;>
    · simp only [JsVal.str.injEq] at h
      exact absurd h (by decide)

/-! ## Titles -/

theorem string_eq_empty_iff (t : String) : t = "" ↔ t.data = [] := by
  constructor
  · intro h; rw [h]
  · intro h
    cases t with
    | mk d => simp only at h; rw [h]

theorem trim_eq_empty_iff (x : String) :
    trim x = "" ↔ ∀ c ∈ x.data, isWhiteSpace c = true := by
  rw [string_eq_empty_iff]
  show List.rdropWhile isWhiteSpace (List.dropWhile isWhiteSpace x.data) = [] ↔ _
  rw [List.rdropWhile_eq_nil_iff]
  constructor
  · intro h c hc
    by_cases hw : isWhiteSpace c = true
    · exact hw
    · exfalso
      have hne : List.dropWhile isWhiteSpace x.data ≠ [] := by
        intro he
        exact hw (List.dropWhile_eq_nil_iff.mp he c hc)
      obtain ⟨pre, hpre⟩ := List.dropWhile_suffix isWhiteSpace (l := x.data)
      have hlast := h _ (List.getLast_mem hne)
      have hmem : c ∈ List.dropWhile isWhiteSpace x.data := by
        by_contra hnot
        have hc' : c ∈ pre ++ List.dropWhile isWhiteSpace x.data := by rw [hpre]; exact hc
        rcases List.mem_append.mp hc' with hp | hp
        · have htw : pre = List.takeWhile isWhiteSpace x.data := by
            have h2 := List.takeWhile_append_dropWhile isWhiteSpace x.data
            have h3 : pre ++ List.dropWhile isWhiteSpace x.data
                = List.takeWhile isWhiteSpace x.data ++ List.dropWhile isWhiteSpace x.data := by
              rw [hpre, h2]
            exact List.append_cancel_right h3
          rw [htw] at hp
          exact hw (List.mem_takeWhile_imp hp)
        · exact hnot hp
      exact hw (h c hmem)
  · intro h c hc
    exact h c ((List.dropWhile_suffix isWhiteSpace).subset hc)

theorem trim_clean (x : String) (h : trim x ≠ "") : TitleClean (trim x) := by
  have hne : (trim x).data ≠ [] := fun he => h ((string_eq_empty_iff _).mpr he)
  have hdata : (trim x).data
      = List.rdropWhile isWhiteSpace (List.dropWhile isWhiteSpace x.data) := rfl
  have hlast : isWhiteSpace ((trim x).data.getLast hne) = false := by
    have := List.rdropWhile_last_not isWhiteSpace (List.dropWhile isWhiteSpace x.data)
      (by rw [← hdata]; exact hne)
    simpa [hdata] using this
  refine ⟨h, ⟨_, List.getLast_mem hne, hlast⟩, ?_, ?_⟩
  · intro c hc
    have hpre : (trim x).data <+: List.dropWhile isWhiteSpace x.data := by
      rw [hdata]; exact List.rdropWhile_prefix _ _
    have hne2 : List.dropWhile isWhiteSpace x.data ≠ [] := by
      intro he
      rw [he] at hpre
      exact hne (List.prefix_nil.mp hpre)
    have h1 := hpre.head hne
    have h2 := List.head_dropWhile_not isWhiteSpace x.data hne2
    rw [List.head?_eq_head hne, Option.some.injEq] at hc
    rw [← hc, h1]
    exact h2
  · intro c hc
    rw [List.getLast?_eq_getLast _ hne, Option.some.injEq] at hc
    rw [← hc]
    exact hlast

theorem trim?_eq_some {title : String} :
    ∀ {v : JsVal}, v.trim? = some title → ∃ x, v = .str x ∧ title = trim x := by
  intro v
  cases v with
  | str x =>
    intro h
    simp only [JsVal.trim?, Option.some.injEq] at h
    exact ⟨x, rfl, h.symm⟩
  | _ => intro h; simp [JsVal.trim?] at h

theorem updateFirst_mem {p : Task → Bool} {f : Task → Task} {t : Task} :
    ∀ {l : List Task}, t ∈ updateFirst p f l → t ∈ l ∨ ∃ u ∈ l, t = f u := by
  intro l
  induction l with
  | nil => intro h; simp [updateFirst] at h
  | cons a l ih =>
    intro h
    by_cases hp : p a = true
    · simp only [updateFirst, hp, if_true, List.mem_cons] at h
      rcases h with h | h
      · exact Or.inr ⟨a, List.mem_cons_self _ _, h⟩
      · exact Or.inl (List.mem_cons_of_mem _ h)
    · simp only [updateFirst, hp, Bool.false_eq_true, if_false, List.mem_cons] at h
      rcases h with h | h
      · exact Or.inl (h ▸ List.mem_cons_self _ _)
      · rcases ih h with h | ⟨u, hu, h⟩
        · exact Or.inl (List.mem_cons_of_mem _ h)
        · exact Or.inr ⟨u, List.mem_cons_of_mem _ hu, h⟩

/-- Where the title of a record comes from after one request: it is the title
of a record that was there before, or a trimmed string that is not empty. -/
theorem step_titles (s : Store) (op : Op) :
    ∀ t ∈ (step s op).tasks,
      (∃ u ∈ s.tasks, t.title = u.title) ∨ (∃ x, t.title = trim x ∧ trim x ≠ "") := by
  have old : ∀ t ∈ s.tasks,
      (∃ u ∈ s.tasks, t.title = u.title) ∨ (∃ x, t.title = trim x ∧ trim x ≠ "") :=
    fun t ht => Or.inl ⟨t, ht, rfl⟩
  cases op with
  | list q => exact old
  | get id => exact old
  | create body now =>
    simp only [step]
    unfold createTask
    split
    · exact old
    · split
      · exact old
      · next title htitle =>
        obtain ⟨x, _, hx⟩ := trim?_eq_some htitle
        split
        · exact old
        · next hne =>
          split
          · exact old
          · intro t ht
            simp only [List.mem_append, List.mem_singleton] at ht
            rcases ht with ht | ht
            · exact old t ht
            · exact Or.inr ⟨x, by rw [ht, hx], by rw [← hx]; exact hne⟩
  | replace id body now =>
    simp only [step]
    unfold replaceTask
    split
    · exact old
    · split
      · exact old
      · split
        · exact old
        · next title htitle =>
          obtain ⟨x, _, hx⟩ := trim?_eq_some htitle
          split
          · exact old
          · next hne =>
            split
            · intro t ht
              rcases List.mem_or_eq_of_mem_set ht with ht | ht
              · exact old t ht
              · exact Or.inr ⟨x, by rw [ht, hx], by rw [← hx]; exact hne⟩
            · exact old
  | toggle id now =>
    simp only [step]
    unfold toggleTask
    split
    · exact old
    · intro t ht
      rcases updateFirst_mem ht with ht | ⟨u, hu, ht⟩
      · exact old t ht
      · exact Or.inl ⟨u, hu, by rw [ht]⟩
  | delete id =>
    simp only [step]
    unfold deleteTask
    split
    · exact old
    · split
      · intro t ht
        exact old t ((List.eraseIdx_sublist _ _).subset ht)
      · exact old
  | stats apiKey =>
    simp only [step]
    unfold statsRoute
    split <;> exact old

theorem titleClean_run (ops : List Op) :
    ∀ s : Store, (∀ t ∈ s.tasks, TitleClean t.title) →
      ∀ t ∈ (run s ops).tasks, TitleClean t.title := by
  induction ops with
  | nil => intro s h; exact h
  | cons op ops ih =>
    intro s h
    refine ih (step s op) ?_
    intro t ht
    rcases step_titles s op t ht with ⟨u, hu, htu⟩ | ⟨x, hx, hne⟩
    · rw [htu]; exact h u hu
    · rw [hx]; exact trim_clean x hne

theorem titleClean_seeds :
    TitleClean "Learn API Testing" ∧ TitleClean "Build Demo API" ∧
      TitleClean "Write Documentation" := by
  refine ⟨⟨by decide, ⟨'L', by decide, by decide⟩, ?_, ?_⟩,
    ⟨by decide, ⟨'B', by decide, by decide⟩, ?_, ?_⟩,
    ⟨by decide, ⟨'W', by decide, by decide⟩, ?_, ?_⟩⟩ <;>
  · intro c hc
    simp only [List.head?, List.getLast?, List.getLast, Option.some.injEq] at hc
    subst hc; decide

theorem titleClean_initialStore (c1 c2 c3 : String) :
    ∀ t ∈ (initialStore c1 c2 c3).tasks, TitleClean t.title := by
  intro t ht
  simp only [initialStore, List.mem_cons, List.mem_singleton, List.not_mem_nil, or_false] at ht
  rcases ht with rfl | rfl | rfl
  · exact titleClean_seeds.1
  · exact titleClean_seeds.2.1
  · exact titleClean_seeds.2.2

/-- C4: in every state reached from the initial state by any sequence of
requests, whatever their bodies, the title of every record is not empty,
holds a character that is not white space, and has no white space at its
start or at its end. -/
theorem titles_clean (c1 c2 c3 : String) (ops : List Op) :
    ∀ t ∈ (run (initialStore c1 c2 c3) ops).tasks,
      t.title ≠ "" ∧ (∃ c ∈ t.title.data, isWhiteSpace c = false) ∧
        (∀ c, t.title.data.head? = some c → isWhiteSpace c = false) ∧
        (∀ c, t.title.data.getLast? = some c → isWhiteSpace c = false) :=
  titleClean_run ops _ (titleClean_initialStore c1 c2 c3)

/-- The record created from the title `"  Buy milk "` in the initial state. -/
theorem titles_clean_witness :
    (⟨4, "Buy milk", .str "", false, .str "medium", "n", none⟩ : Task) ∈
        (run (initialStore "a" "b" "c")
          [.create ⟨.str "  Buy milk ", .undefined, .undefined, .undefined⟩ "n"]).tasks ∧
    ("Buy milk" ≠ "" ∧ (∃ c ∈ "Buy milk".data, isWhiteSpace c = false) ∧
      (∀ c, "Buy milk".data.head? = some c → isWhiteSpace c = false) ∧
      (∀ c, "Buy milk".data.getLast? = some c → isWhiteSpace c = false)) :=
  ⟨List.Mem.tail _ (List.Mem.tail _ (List.Mem.tail _ (List.Mem.head _))),
   titles_clean "a" "b" "c"
     [.create ⟨.str "  Buy milk ", .undefined, .undefined, .undefined⟩ "n"]
     ⟨4, "Buy milk", .str "", false, .str "medium", "n", none⟩
     (List.Mem.tail _ (List.Mem.tail _ (List.Mem.tail _ (List.Mem.head _))))⟩

/-! ## Failing requests -/

theorem createTask_err (s : Store) (body : Body) (now : String)
    (h : (createTask s body now).1.isErr = true) : (createTask s body now).2 = s := by
  rcases createTask_cases s body now with ⟨st, e, hc⟩ | ⟨t, _, hc⟩
  · rw [hc]
  · rw [hc] at h; simp [Reply.isErr] at h

theorem replaceTask_err (s : Store) (id : Int) (body : Body) (now : String)
    (h : (replaceTask s id body now).1.isErr = true) : (replaceTask s id body now).2 = s := by
  revert h
  unfold replaceTask
  split
  · intro _; rfl
  · split
    · intro _; rfl
    · split
      · intro _; rfl
      · split
        · intro _; rfl
        · split
          · intro h; simp [Reply.isErr] at h
          · intro _; rfl

theorem toggleTask_err (s : Store) (id : Int) (now : String)
    (h : (toggleTask s id now).1.isErr = true) : (toggleTask s id now).2 = s := by
  revert h
  unfold toggleTask
  split
  · intro _; rfl
  · intro h; simp [Reply.isErr] at h

theorem deleteTask_err (s : Store) (id : Int)
    (h : (deleteTask s id).1.isErr = true) : (deleteTask s id).2 = s := by
  revert h
  unfold deleteTask
  split
  · intro _; rfl
  · split
    · intro h; simp [Reply.isErr] at h
    · intro _; rfl

theorem statsRoute_store (s : Store) (apiKey : Option String) : (statsRoute s apiKey).2 = s := by
  unfold statsRoute
  split <;> rfl

/-- C5: whenever create, replace, toggle, delete, get or the gated stats route
answers with an error (any failure status: 404, 400, 401, or the 500 of a
throwing handler), the state after the call, the records with all their
fields in their order and the counter, is the state before the call. -/
theorem error_leaves_store (s : Store) :
    (∀ body now, (createTask s body now).1.isErr = true → (createTask s body now).2 = s) ∧
    (∀ id body now, (replaceTask s id body now).1.isErr = true →
        (replaceTask s id body now).2 = s) ∧
    (∀ id now, (toggleTask s id now).1.isErr = true → (toggleTask s id now).2 = s) ∧
    (∀ id, (deleteTask s id).1.isErr = true → (deleteTask s id).2 = s) ∧
    (∀ id, (getTask s id).isErr = true → step s (.get id) = s) ∧
    (∀ apiKey, (statsRoute s apiKey).1.isErr = true → (statsRoute s apiKey).2 = s) :=
  ⟨createTask_err s, replaceTask_err s, toggleTask_err s, deleteTask_err s,
    fun _ _ => rfl, fun apiKey _ => statsRoute_store s apiKey⟩

/-- On the initial state: a create with a blank title (400), a replace of an
absent id (404), a replace with a numeric title (500), a toggle and a delete
of an absent id (404), a get of an absent id (404) and a stats request with a
wrong key (401) all leave the state as it was. -/
theorem error_leaves_store_witness :
    (createTask (initialStore "a" "b" "c") ⟨.str " ", .undefined, .undefined, .undefined⟩ "n").2
        = initialStore "a" "b" "c" ∧
    (replaceTask (initialStore "a" "b" "c") 9999 ⟨.str "x", .undefined, .undefined, .undefined⟩
        "n").2 = initialStore "a" "b" "c" ∧
    (replaceTask (initialStore "a" "b" "c") 1 ⟨.num 7, .undefined, .undefined, .undefined⟩
        "n").2 = initialStore "a" "b" "c" ∧
    (toggleTask (initialStore "a" "b" "c") 9999 "n").2 = initialStore "a" "b" "c" ∧
    (deleteTask (initialStore "a" "b" "c") 9999).2 = initialStore "a" "b" "c" ∧
    step (initialStore "a" "b" "c") (.get 9999) = initialStore "a" "b" "c" ∧
    (statsRoute (initialStore "a" "b" "c") (some "wrong")).2 = initialStore "a" "b" "c" :=
  ⟨(error_leaves_store (initialStore "a" "b" "c")).1 _ _ rfl,
   (error_leaves_store (initialStore "a" "b" "c")).2.1 _ _ _ rfl,
   (error_leaves_store (initialStore "a" "b" "c")).2.1 _ _ _ rfl,
   (error_leaves_store (initialStore "a" "b" "c")).2.2.1 _ _ rfl,
   (error_leaves_store (initialStore "a" "b" "c")).2.2.2.1 _ rfl,
   (error_leaves_store (initialStore "a" "b" "c")).2.2.2.2.1 9999 rfl,
   (error_leaves_store (initialStore "a" "b" "c")).2.2.2.2.2 (some "wrong") rfl⟩

/-! ## Absent ids -/

/-- C6: when no record of the collection has the id, get, toggle, delete and
replace each answer 404 Not Found; replace does so whatever the body is, a
missing or blank title included, since it looks the id up before it reads the
title. -/
theorem absent_id_not_found (s : Store) (id : Int) (h : ∀ t ∈ s.tasks, t.id ≠ id) :
    getTask s id = .err 404 "Not Found" ∧
    (∀ now, (toggleTask s id now).1 = .err 404 "Not Found") ∧
    (deleteTask s id).1 = .err 404 "Not Found" ∧
    (∀ body now, (replaceTask s id body now).1 = .err 404 "Not Found") := by
  have hfind : s.tasks.find? (fun t => t.id == id) = none := by
    rw [List.find?_eq_none]
    intro t ht
    simpa using h t ht
  have hidx : findIndex (fun t => t.id == id) s.tasks = none := by
    rw [findIndex_eq_none]
    intro t ht
    simpa using h t ht
  refine ⟨?_, ?_, ?_, ?_⟩
  · simp only [getTask, hfind]; rfl
  · intro now; simp only [toggleTask, hfind]; rfl
  · simp only [deleteTask, hidx]; rfl
  · intro body now; simp only [replaceTask, hidx]; rfl

/-- Id 9999 on the seed records; the replace bodies have no title and a
blank title. -/
theorem absent_id_not_found_witness :
    getTask (initialStore "a" "b" "c") 9999 = .err 404 "Not Found" ∧
    (toggleTask (initialStore "a" "b" "c") 9999 "n").1 = .err 404 "Not Found" ∧
    (deleteTask (initialStore "a" "b" "c") 9999).1 = .err 404 "Not Found" ∧
    (replaceTask (initialStore "a" "b" "c") 9999
        ⟨.undefined, .undefined, .undefined, .undefined⟩ "n").1 = .err 404 "Not Found" ∧
    (replaceTask (initialStore "a" "b" "c") 9999
        ⟨.str "  ", .undefined, .undefined, .undefined⟩ "n").1 = .err 404 "Not Found" :=
  have h := absent_id_not_found (initialStore "a" "b" "c") 9999 (by
    intro t ht
    simp only [initialStore, List.mem_cons, List.mem_singleton, List.not_mem_nil,
      or_false] at ht
    rcases ht with rfl | rfl | rfl <;> decide)
  ⟨h.1, h.2.1 "n", h.2.2.1, h.2.2.2 _ "n", h.2.2.2 _ "n"⟩

/-! ## Validation of create -/

theorem truthy_str (x : String) : (JsVal.str x).truthy = true ↔ x ≠ "" := by
  simp [JsVal.truthy]

theorem trim_ne_empty {x : String} (h : ∃ c ∈ x.data, isWhiteSpace c = false) :
    trim x ≠ "" := by
  intro he
  obtain ⟨c, hc, hw⟩ := h
  have := (trim_eq_empty_iff x).mp he c hc
  rw [hw] at this
  exact Bool.false_ne_true this

theorem ne_empty_of_nonblank {x : String} (h : ∃ c ∈ x.data, isWhiteSpace c = false) :
    x ≠ "" := by
  intro he
  obtain ⟨c, hc, _⟩ := h
  rw [he] at hc
  exact List.not_mem_nil _ hc

theorem includes_of_isPriority {v : JsVal} (h : IsPriority v) :
    v.truthy = true ∧ includes validPriorities v = true := by
  rcases h with rfl | rfl | rfl <;> exact ⟨by decide, by decide⟩

/-- C7: in every state create answers 400 Bad Request when the title is
omitted, is the empty string or is a string of white space only, whatever
description and priority are; and it does not fail when the title is a string
with a character that is not white space and the priority is absent or one of
the three enum values. -/
theorem createTask_title_check (s : Store) (body : Body) (now : String) :
    (body.title = .undefined ∨ body.title = .str "" ∨
        (∃ x, body.title = .str x ∧ ∀ c ∈ x.data, isWhiteSpace c = true) →
      (createTask s body now).1 = .err 400 "Bad Request") ∧
    (∀ x, body.title = .str x → (∃ c ∈ x.data, isWhiteSpace c = false) →
      (body.priority = .undefined ∨ IsPriority body.priority) →
      (createTask s body now).1.isErr = false) := by
  constructor
  · intro h
    rcases h with h | h | ⟨x, h, hx⟩
    · simp only [createTask, h, JsVal.truthy]; rfl
    · simp only [createTask, h, JsVal.truthy]; rfl
    · have ht : trim x = "" := (trim_eq_empty_iff x).mpr hx
      unfold createTask
      split
      · rfl
      · simp only [h, JsVal.trim?, ht, if_true]; rfl
  · intro x h hx hp
    have h1 : (JsVal.str x).truthy = true := (truthy_str x).mpr (ne_empty_of_nonblank hx)
    have h2 : trim x ≠ "" := trim_ne_empty hx
    have h3 : (body.priority.truthy && !includes validPriorities body.priority) = false := by
      rcases hp with hp | hp
      · rw [hp]; rfl
      · simp [(includes_of_isPriority hp).2]
    simp only [createTask, h, h1, JsVal.trim?, h2, h3, Bool.not_true, Bool.false_eq_true,
      if_false, Reply.isErr]

/-- Create on the initial state with the title omitted, empty and blank, and
with the title `"X"`. -/
theorem createTask_title_check_witness :
    (createTask (initialStore "a" "b" "c") ⟨.undefined, .str "d", .undefined, .str "high"⟩ "n").1
        = .err 400 "Bad Request" ∧
    (createTask (initialStore "a" "b" "c") ⟨.str "", .undefined, .undefined, .undefined⟩ "n").1
        = .err 400 "Bad Request" ∧
    (createTask (initialStore "a" "b" "c") ⟨.str "   ", .undefined, .undefined, .undefined⟩ "n").1
        = .err 400 "Bad Request" ∧
    (createTask (initialStore "a" "b" "c") ⟨.str "X", .undefined, .undefined, .undefined⟩
        "n").1.isErr = false :=
  ⟨(createTask_title_check _ _ _).1 (Or.inl rfl),
   (createTask_title_check _ _ _).1 (Or.inr (Or.inl rfl)),
   (createTask_title_check _ _ _).1 (Or.inr (Or.inr ⟨"   ", rfl, by decide⟩)),
   (createTask_title_check _ _ _).2 "X" rfl ⟨'X', by decide, by decide⟩ (Or.inl rfl)⟩

/-- C8 (as stated, fails): the empty string is a supplied priority that is
none of the three enum values, and create accepts it: on the initial state
the request `{title: "X", priority: ""}` is answered 201 and the record gets
priority `"medium"`. -/
theorem createTask_empty_priority_accepted :
    ¬ IsPriority (.str "") ∧
    (createTask (initialStore "a" "b" "c") ⟨.str "X", .undefined, .undefined, .str ""⟩ "n").1
      = .ok 201 ⟨4, "X", .str "", false, .str "medium", "n", none⟩ := by
  refine ⟨?_, rfl⟩
  intro h
  rcases h with h | h | h <;>
  · simp only [JsVal.str.injEq] at h
    exact absurd h (by decide)

/-- C8 (amended): for a request with a non-blank title, create answers 400 Bad
Request, and leaves the state alone, whenever the priority is a non-empty
string that is none of the three enum values; the empty string is taken as an
absent priority: the request succeeds with status 201 and the record gets
priority `"medium"`. -/
theorem createTask_priority_check (s : Store) (body : Body) (now : String) (x : String)
    (ht : body.title = .str x) (hx : ∃ c ∈ x.data, isWhiteSpace c = false) :
    (∀ p, body.priority = .str p → p ≠ "" → ¬ IsPriority (.str p) →
      createTask s body now = (.err 400 "Bad Request", s)) ∧
    (body.priority = .str "" →
      (createTask s body now).1 = .ok 201
        { id := s.nextId
          title := trim x
          description := body.description.orElse (.str "")
          completed := false
          priority := .str "medium"
          createdAt := now
          updatedAt := none }) := by
  have h1 : (JsVal.str x).truthy = true := (truthy_str x).mpr (ne_empty_of_nonblank hx)
  have h2 : trim x ≠ "" := trim_ne_empty hx
  constructor
  · intro p hp hne hbad
    have h3 : (JsVal.str p).truthy = true := (truthy_str p).mpr hne
    have h4 : includes validPriorities (.str p) = false := by
      simp only [IsPriority, JsVal.str.injEq, not_or] at hbad
      simp [includes, validPriorities, hbad.1, hbad.2.1, hbad.2.2]
    simp only [createTask, ht, h1, JsVal.trim?, h2, hp, h3, h4, Bool.not_true, Bool.not_false,
      Bool.and_self, Bool.false_eq_true, if_false, if_true]
    rfl
  · intro hp
    have h3 : (JsVal.str "").truthy = false := by decide
    simp only [createTask, ht, h1, JsVal.trim?, h2, hp, h3, Bool.not_true, Bool.false_and,
      Bool.false_eq_true, if_false, JsVal.orElse]

/-- Create on the initial state with priority `"urgent"` and with priority
`""`. -/
theorem createTask_priority_check_witness :
    createTask (initialStore "a" "b" "c") ⟨.str "X", .undefined, .undefined, .str "urgent"⟩ "n"
        = (.err 400 "Bad Request", initialStore "a" "b" "c") ∧
    (createTask (initialStore "a" "b" "c") ⟨.str "X", .undefined, .undefined, .str ""⟩ "n").1
        = .ok 201 ⟨4, "X", .str "", false, .str "medium", "n", none⟩ :=
  ⟨(createTask_priority_check (initialStore "a" "b" "c")
      ⟨.str "X", .undefined, .undefined, .str "urgent"⟩ "n" "X" rfl
      ⟨'X', by decide, by decide⟩).1 "urgent" rfl (by decide)
      (by
        intro h
        rcases h with h | h | h <;>
        · simp only [JsVal.str.injEq] at h
          exact absurd h (by decide)),
   (createTask_priority_check (initialStore "a" "b" "c")
      ⟨.str "X", .undefined, .undefined, .str ""⟩ "n" "X" rfl
      ⟨'X', by decide, by decide⟩).2 rfl⟩

/-! ## A successful create -/

/-- C9 (as stated, fails): on the initial state the request
`{title: "X", description: 0}` supplies a description, the number 0; create
answers 201 and the record gets the description `""`, which is neither the
input nor the default of an absent field. -/
theorem createTask_falsy_description_defaulted :
    (createTask (initialStore "a" "b" "c") ⟨.str "X", .num 0, .undefined, .undefined⟩ "n").1
      = .ok 201 ⟨4, "X", .str "", false, .str "medium", "n", none⟩ ∧
    JsVal.num 0 ≠ JsVal.undefined ∧ JsVal.str "" ≠ JsVal.num 0 :=
  ⟨rfl, nofun, nofun⟩

/-- C9 (amended): for a request whose title is a string with a character that
is not white space and whose priority is absent or one of the three enum
values, whatever the description is, create answers 201 with the record made
of the counter value as id, the trimmed title, the description or `""` when
it is absent or falsy, the priority or `"medium"` when absent,
`completed = false`, the clock reading as `createdAt` and no `updatedAt`; the
state after is the old collection with that record appended at the end and
the counter one greater. -/
theorem createTask_ok (s : Store) (body : Body) (now : String) (x : String)
    (ht : body.title = .str x) (hx : ∃ c ∈ x.data, isWhiteSpace c = false)
    (hp : body.priority = .undefined ∨ IsPriority body.priority) :
    createTask s body now =
      (.ok 201
        { id := s.nextId
          title := trim x
          description := if body.description.truthy then body.description else .str ""
          completed := false
          priority := match body.priority with
            | .undefined => .str "medium"
            | p => p
          createdAt := now
          updatedAt := none },
       { tasks := s.tasks ++
          [{ id := s.nextId
             title := trim x
             description := if body.description.truthy then body.description else .str ""
             completed := false
             priority := match body.priority with
               | .undefined => .str "medium"
               | p => p
             createdAt := now
             updatedAt := none }]
         nextId := s.nextId + 1 }) := by
  have h1 : (JsVal.str x).truthy = true := (truthy_str x).mpr (ne_empty_of_nonblank hx)
  have h2 : trim x ≠ "" := trim_ne_empty hx
  have h3 : (body.priority.truthy && !includes validPriorities body.priority) = false := by
    rcases hp with hp | hp
    · rw [hp]; rfl
    · simp [(includes_of_isPriority hp).2]
  have h4 : body.priority.orElse (.str "medium")
      = (match body.priority with | .undefined => .str "medium" | p => p) := by
    rcases hp with hp | hp
    · rw [hp]; rfl
    · rcases hp with hp | hp | hp <;> rw [hp] <;> rfl
  have h5 : body.description.orElse (.str "")
      = (if body.description.truthy then body.description else .str "") := rfl
  simp only [createTask, ht, h1, JsVal.trim?, h2, h3, Bool.not_true, Bool.false_eq_true,
    if_false]
  rw [h4, h5]

/-- Create on the initial state with the requests `{title: "X"}`,
`{title: " Y ", description: "d", priority: "high"}` and
`{title: "Z", description: null}`. -/
theorem createTask_ok_witness :
    createTask (initialStore "a" "b" "c") ⟨.str "X", .undefined, .undefined, .undefined⟩ "n" =
      (.ok 201 ⟨4, "X", .str "", false, .str "medium", "n", none⟩,
       { tasks := (initialStore "a" "b" "c").tasks ++
           [⟨4, "X", .str "", false, .str "medium", "n", none⟩]
         nextId := 5 }) ∧
    createTask (initialStore "a" "b" "c") ⟨.str " Y ", .str "d", .undefined, .str "high"⟩ "n" =
      (.ok 201 ⟨4, "Y", .str "d", false, .str "high", "n", none⟩,
       { tasks := (initialStore "a" "b" "c").tasks ++
           [⟨4, "Y", .str "d", false, .str "high", "n", none⟩]
         nextId := 5 }) ∧
    createTask (initialStore "a" "b" "c") ⟨.str "Z", .null, .undefined, .undefined⟩ "n" =
      (.ok 201 ⟨4, "Z", .str "", false, .str "medium", "n", none⟩,
       { tasks := (initialStore "a" "b" "c").tasks ++
           [⟨4, "Z", .str "", false, .str "medium", "n", none⟩]
         nextId := 5 }) :=
  ⟨createTask_ok (initialStore "a" "b" "c") ⟨.str "X", .undefined, .undefined, .undefined⟩ "n"
      "X" rfl ⟨'X', by decide, by decide⟩ (Or.inl rfl),
   createTask_ok (initialStore "a" "b" "c") ⟨.str " Y ", .str "d", .undefined, .str "high"⟩ "n"
      " Y " rfl ⟨'Y', by decide, by decide⟩ (Or.inr (Or.inr (Or.inr rfl))),
   createTask_ok (initialStore "a" "b" "c") ⟨.str "Z", .null, .undefined, .undefined⟩ "n"
      "Z" rfl ⟨'Z', by decide, by decide⟩ (Or.inl rfl)⟩

/-! ## A successful replace -/

theorem findIndex_of_mem {id : Int} {l : List Task} (h : ∃ t ∈ l, t.id = id) :
    ∃ i old, findIndex (fun t => t.id == id) l = some i ∧ l[i]? = some old ∧ old.id = id ∧
      ∀ j u, j < i → l[j]? = some u → u.id ≠ id := by
  cases hidx : findIndex (fun t => t.id == id) l with
  | none =>
    obtain ⟨t, ht, hid⟩ := h
    have := findIndex_eq_none.mp hidx t ht
    simp [hid] at this
  | some i =>
    obtain ⟨old, hget, hp, hlt⟩ := findIndex_eq_some hidx
    refine ⟨i, old, rfl, hget, by simpa using hp, ?_⟩
    intro j u hj hu
    simpa using hlt j u hj hu

/-- C10: when a record of the collection has the id and the title of the body
is a string with a character that is not white space, replace answers 200
with the record at the first position holding that id rewritten: same id and
`createdAt`, the trimmed title, the description or `""` when it is falsy, the
truthiness of `completed`, the priority or `"medium"` when it is falsy, and
`updatedAt` stamped.  The state after has the same counter and the same
length, holds the rewritten record at that position and the old records at
every other position. -/
theorem replaceTask_ok (s : Store) (id : Int) (body : Body) (now : String) (x : String)
    (ht : body.title = .str x) (hx : ∃ c ∈ x.data, isWhiteSpace c = false)
    (hid : ∃ t ∈ s.tasks, t.id = id) :
    ∃ (i : Nat) (old : Task),
      s.tasks[i]? = some old ∧ old.id = id ∧
      (∀ j u, j < i → s.tasks[j]? = some u → u.id ≠ id) ∧
      (replaceTask s id body now).1 = .ok 200
        { id := old.id
          title := trim x
          description := if body.description.truthy then body.description else .str ""
          completed := body.completed.truthy
          priority := if body.priority.truthy then body.priority else .str "medium"
          createdAt := old.createdAt
          updatedAt := some now } ∧
      (replaceTask s id body now).2.nextId = s.nextId ∧
      (replaceTask s id body now).2.tasks.length = s.tasks.length ∧
      (replaceTask s id body now).2.tasks[i]? = some
        { id := old.id
          title := trim x
          description := if body.description.truthy then body.description else .str ""
          completed := body.completed.truthy
          priority := if body.priority.truthy then body.priority else .str "medium"
          createdAt := old.createdAt
          updatedAt := some now } ∧
      ∀ j, j ≠ i → (replaceTask s id body now).2.tasks[j]? = s.tasks[j]? := by
  obtain ⟨i, old, hidx, hget, hold, hfirst⟩ := findIndex_of_mem hid
  have h1 : (JsVal.str x).truthy = true := (truthy_str x).mpr (ne_empty_of_nonblank hx)
  have h2 : trim x ≠ "" := trim_ne_empty hx
  have hlen : i < s.tasks.length := (List.getElem?_eq_some_iff.mp hget).1
  have hrun : replaceTask s id body now =
      (.ok 200
        { id := old.id
          title := trim x
          description := if body.description.truthy then body.description else .str ""
          completed := body.completed.truthy
          priority := if body.priority.truthy then body.priority else .str "medium"
          createdAt := old.createdAt
          updatedAt := some now },
       { tasks := s.tasks.set i
          { id := old.id
            title := trim x
            description := if body.description.truthy then body.description else .str ""
            completed := body.completed.truthy
            priority := if body.priority.truthy then body.priority else .str "medium"
            createdAt := old.createdAt
            updatedAt := some now }
         nextId := s.nextId }) := by
    simp only [replaceTask, hidx, ht, h1, JsVal.trim?, h2, hget, Bool.not_true,
      Bool.false_eq_true, if_false, JsVal.orElse]
  refine ⟨i, old, hget, hold, hfirst, ?_, ?_, ?_, ?_, ?_⟩
  · rw [hrun]
  · rw [hrun]
  · rw [hrun]; exact List.length_set _ _ _
  · rw [hrun]; exact List.getElem?_set_self hlen
  · intro j hj
    rw [hrun]
    exact List.getElem?_set_ne (Ne.symm hj)

/-- Replace of record 2 of the initial state by the body
`{title: " New ", completed: "yes"}`: the record at position 1 is rewritten,
the others stay. -/
theorem replaceTask_ok_witness :
    ∃ (i : Nat) (old : Task),
      (initialStore "a" "b" "c").tasks[i]? = some old ∧ old.id = 2 ∧
      (∀ j u, j < i → (initialStore "a" "b" "c").tasks[j]? = some u → u.id ≠ 2) ∧
      (replaceTask (initialStore "a" "b" "c") 2
          ⟨.str " New ", .undefined, .str "yes", .undefined⟩ "n").1 = .ok 200
        { id := old.id
          title := trim " New "
          description := if JsVal.undefined.truthy then JsVal.undefined else .str ""
          completed := (JsVal.str "yes").truthy
          priority := if JsVal.undefined.truthy then JsVal.undefined else .str "medium"
          createdAt := old.createdAt
          updatedAt := some "n" } ∧
      (replaceTask (initialStore "a" "b" "c") 2
          ⟨.str " New ", .undefined, .str "yes", .undefined⟩ "n").2.nextId
        = (initialStore "a" "b" "c").nextId ∧
      (replaceTask (initialStore "a" "b" "c") 2
          ⟨.str " New ", .undefined, .str "yes", .undefined⟩ "n").2.tasks.length
        = (initialStore "a" "b" "c").tasks.length ∧
      (replaceTask (initialStore "a" "b" "c") 2
          ⟨.str " New ", .undefined, .str "yes", .undefined⟩ "n").2.tasks[i]? = some
        { id := old.id
          title := trim " New "
          description := if JsVal.undefined.truthy then JsVal.undefined else .str ""
          completed := (JsVal.str "yes").truthy
          priority := if JsVal.undefined.truthy then JsVal.undefined else .str "medium"
          createdAt := old.createdAt
          updatedAt := some "n" } ∧
      ∀ j, j ≠ i →
        (replaceTask (initialStore "a" "b" "c") 2
          ⟨.str " New ", .undefined, .str "yes", .undefined⟩ "n").2.tasks[j]?
        = (initialStore "a" "b" "c").tasks[j]? :=
  replaceTask_ok (initialStore "a" "b" "c") 2 ⟨.str " New ", .undefined, .str "yes", .undefined⟩
    "n" " New " rfl ⟨'N', by decide, by decide⟩
    ⟨⟨2, "Build Demo API", .str "Create a testable REST API", true, .str "medium", "b", none⟩,
      List.Mem.tail _ (List.Mem.head _), rfl⟩

/-! ## Delete -/

theorem findIndex_split (p : Task → Bool) :
    ∀ l : List Task, (∃ t ∈ l, p t = true) →
      ∃ pre d post, l = pre ++ d :: post ∧ p d = true ∧ (∀ u ∈ pre, p u = false) ∧
        findIndex p l = some pre.length := by
  intro l
  induction l with
  | nil => intro h; obtain ⟨t, ht, _⟩ := h; cases ht
  | cons a l ih =>
    intro h
    by_cases hp : p a = true
    · exact ⟨[], a, l, rfl, hp, by simp, by simp [findIndex, hp]⟩
    · simp only [Bool.not_eq_true] at hp
      obtain ⟨t, ht, hpt⟩ := h
      have hmem : t ∈ l := by
        rcases List.mem_cons.mp ht with rfl | ht
        · rw [hp] at hpt; cases hpt
        · exact ht
      obtain ⟨pre, d, post, hl, hd, hpre, hidx⟩ := ih ⟨t, hmem, hpt⟩
      refine ⟨a :: pre, d, post, by rw [hl]; rfl, hd, ?_, ?_⟩
      · intro u hu
        rcases List.mem_cons.mp hu with rfl | hu
        · exact hp
        · exact hpre u hu
      · simp [findIndex, hp, hidx]

theorem getElem?_split {α : Type} (pre : List α) (d : α) (post : List α) :
    (pre ++ d :: post)[pre.length]? = some d := by
  induction pre with
  | nil => simp
  | cons a pre ih => simpa using ih

theorem eraseIdx_split {α : Type} (pre : List α) (d : α) (post : List α) :
    (pre ++ d :: post).eraseIdx pre.length = pre ++ post := by
  induction pre with
  | nil => rfl
  | cons a pre ih => simp [List.eraseIdx, ih]

theorem pairwise_ids {s : Store} (h : IdsFresh s) :
    s.tasks.Pairwise (fun a b => a.id ≠ b.id) := by
  have h1 := h.1
  unfold Store.ids List.Nodup at h1
  exact List.pairwise_map.mp h1

theorem split_unique {pre post : List Task} {d : Task}
    (h : (pre ++ d :: post).Pairwise (fun a b => a.id ≠ b.id)) :
    ∀ t ∈ pre ++ post, t.id ≠ d.id := by
  rw [List.pairwise_append] at h
  obtain ⟨_, hpost, hcross⟩ := h
  intro t ht
  rcases List.mem_append.mp ht with ht | ht
  · exact hcross t ht d (List.mem_cons_self _ _)
  · exact fun he => (List.rel_of_pairwise_cons hpost ht) he.symm

theorem getTask_absent (s : Store) (id : Int) (h : ∀ t ∈ s.tasks, t.id ≠ id) :
    getTask s id = .err 404 "Not Found" := by
  have hfind : s.tasks.find? (fun t => t.id == id) = none := by
    rw [List.find?_eq_none]
    intro t ht
    simpa using h t ht
  simp only [getTask, hfind]; rfl

/-- C11: in every state reached from the initial state, delete of an id a
record has answers 200 with that record; the collection splits around the
record as `pre ++ deleted :: post`, the state after holds exactly
`pre ++ post`, the other records unchanged and in their order, with the same
counter, and a get of the same id in the state after answers 404 Not Found. -/
theorem deleteTask_ok (c1 c2 c3 : String) (ops : List Op) (id : Int)
    (hid : ∃ t ∈ (run (initialStore c1 c2 c3) ops).tasks, t.id = id) :
    ∃ (pre : List Task) (deleted : Task) (post : List Task),
      (run (initialStore c1 c2 c3) ops).tasks = pre ++ deleted :: post ∧
      deleted.id = id ∧
      deleteTask (run (initialStore c1 c2 c3) ops) id =
        (.ok 200 deleted,
         { tasks := pre ++ post, nextId := (run (initialStore c1 c2 c3) ops).nextId }) ∧
      getTask (deleteTask (run (initialStore c1 c2 c3) ops) id).2 id
        = .err 404 "Not Found" := by
  have hfresh := idsFresh_run ops _ (idsFresh_initialStore c1 c2 c3)
  generalize run (initialStore c1 c2 c3) ops = s at hid hfresh ⊢
  have hid' : ∃ t ∈ s.tasks, (fun t : Task => t.id == id) t = true := by
    obtain ⟨t, ht, h⟩ := hid
    exact ⟨t, ht, by simpa using h⟩
  obtain ⟨pre, d, post, hl, hd, _, hidx⟩ := findIndex_split _ s.tasks hid'
  have hdid : d.id = id := by simpa using hd
  have hdel : deleteTask s id = (.ok 200 d, { tasks := pre ++ post, nextId := s.nextId }) := by
    rw [hl] at hidx
    simp only [deleteTask, hl, hidx, getElem?_split, eraseIdx_split]
  refine ⟨pre, d, post, hl, hdid, hdel, ?_⟩
  rw [hdel]
  apply getTask_absent
  have hpw := pairwise_ids hfresh
  rw [hl] at hpw
  intro t ht
  rw [← hdid]
  exact split_unique hpw t ht

/-- Delete of record 2 of the initial state. -/
theorem deleteTask_ok_witness :
    ∃ (pre : List Task) (deleted : Task) (post : List Task),
      (run (initialStore "a" "b" "c") []).tasks = pre ++ deleted :: post ∧
      deleted.id = 2 ∧
      deleteTask (run (initialStore "a" "b" "c") []) 2 =
        (.ok 200 deleted,
         { tasks := pre ++ post, nextId := (run (initialStore "a" "b" "c") []).nextId }) ∧
      getTask (deleteTask (run (initialStore "a" "b" "c") []) 2).2 2
        = .err 404 "Not Found" :=
  deleteTask_ok "a" "b" "c" [] 2
    ⟨⟨2, "Build Demo API", .str "Create a testable REST API", true, .str "medium", "b", none⟩,
      List.Mem.tail _ (List.Mem.head _), rfl⟩

/-! ## Toggle -/

theorem find?_unique :
    ∀ {l : List Task}, l.Pairwise (fun a b => a.id ≠ b.id) → ∀ {T : Task}, T ∈ l →
      l.find? (fun t => t.id == T.id) = some T := by
  intro l
  induction l with
  | nil => intro _ T hT; cases hT
  | cons a l ih =>
    intro hpw T hT
    rcases List.mem_cons.mp hT with rfl | hT
    · simp [List.find?]
    · have hne : a.id ≠ T.id := List.rel_of_pairwise_cons hpw hT
      have hne' : (a.id == T.id) = false := by simpa using hne
      simp only [List.find?, hne']
      exact ih (List.Pairwise.of_cons hpw) hT

theorem find?_updateFirst {p : Task → Bool} {f : Task → Task} (hf : ∀ u, p (f u) = p u) :
    ∀ {l : List Task} {t : Task}, l.find? p = some t →
      (updateFirst p f l).find? p = some (f t) := by
  intro l
  induction l with
  | nil => intro t h; simp at h
  | cons a l ih =>
    intro t h
    by_cases hp : p a = true
    · simp only [List.find?, hp, Option.some.injEq] at h
      subst h
      simp [updateFirst, hp, List.find?, hf]
    · simp only [Bool.not_eq_true] at hp
      simp only [List.find?, hp] at h
      simp only [updateFirst, hp, Bool.false_eq_true, if_false, List.find?]
      exact ih h

theorem toggleTask_of_find {s : Store} {id : Int} {t : Task} (now : String)
    (h : s.tasks.find? (fun t => t.id == id) = some t) :
    toggleTask s id now =
      (.ok 200 { t with completed := !t.completed, updatedAt := some now },
       Store.mk
        (updateFirst (fun t => t.id == id)
          (fun t => { t with completed := !t.completed, updatedAt := some now }) s.tasks)
        s.nextId) := by
  simp only [toggleTask, h]

/-- C12: in every state reached from the initial state and for every record T
of its collection, two toggles of `T.id` in a row both answer 200; the first
returns T with `completed` negated, the second returns T with its original
`completed`, each with `updatedAt` stamped by its own clock reading. -/
theorem toggleTask_twice (c1 c2 c3 : String) (ops : List Op) (T : Task)
    (hT : T ∈ (run (initialStore c1 c2 c3) ops).tasks) (now1 now2 : String) :
    (toggleTask (run (initialStore c1 c2 c3) ops) T.id now1).1
      = .ok 200 { T with completed := !T.completed, updatedAt := some now1 } ∧
    (toggleTask (toggleTask (run (initialStore c1 c2 c3) ops) T.id now1).2 T.id now2).1
      = .ok 200 { T with completed := T.completed, updatedAt := some now2 } := by
  have hfresh := idsFresh_run ops _ (idsFresh_initialStore c1 c2 c3)
  generalize run (initialStore c1 c2 c3) ops = s at hT hfresh ⊢
  have hfind := find?_unique (pairwise_ids hfresh) hT
  have h1 := toggleTask_of_find now1 hfind
  have hfind2 := find?_updateFirst
    (p := fun t : Task => t.id == T.id)
    (f := fun t : Task => { t with completed := !t.completed, updatedAt := some now1 })
    (fun _ => rfl) hfind
  refine ⟨by rw [h1], ?_⟩
  rw [h1]
  have h2 := toggleTask_of_find
    (s := Store.mk
      (updateFirst (fun t => t.id == T.id)
        (fun t => { t with completed := !t.completed, updatedAt := some now1 }) s.tasks)
      s.nextId)
    now2 hfind2
  rw [h2]
  simp

/-- Two toggles of record 2 of the initial state, which starts completed. -/
theorem toggleTask_twice_witness :
    (toggleTask (run (initialStore "a" "b" "c") []) 2 "t1").1
      = .ok 200 ⟨2, "Build Demo API", .str "Create a testable REST API", false, .str "medium",
          "b", some "t1"⟩ ∧
    (toggleTask (toggleTask (run (initialStore "a" "b" "c") []) 2 "t1").2 2 "t2").1
      = .ok 200 ⟨2, "Build Demo API", .str "Create a testable REST API", true, .str "medium",
          "b", some "t2"⟩ :=
  toggleTask_twice "a" "b" "c" []
    ⟨2, "Build Demo API", .str "Create a testable REST API", true, .str "medium", "b", none⟩
    (List.Mem.tail _ (List.Mem.head _)) "t1" "t2"

/-! ## Listing -/

theorem includesStr_iff (needle : List Char) :
    ∀ text : List Char, includesStr needle text = true ↔ needle <:+: text := by
  intro text
  induction text with
  | nil =>
    simp only [includesStr, List.isEmpty_iff, List.infix_nil]
  | cons c cs ih =>
    simp only [includesStr, Bool.or_eq_true, List.isPrefixOf_iff_prefix, ih,
      List.infix_cons_iff]

theorem listTasks_count (toLowerCase : String → String) (s : Store) (q : Query)
    (st : Nat) (L : Listing) (h : listTasks toLowerCase s q = .ok st L) :
    L.count = L.tasks.length := by
  unfold listTasks at h
  simp only at h
  split at h
  · split at h
    · simp only [Reply.ok.injEq] at h
      rw [← h.2]
    · cases h
  · simp only [Reply.ok.injEq] at h
    rw [← h.2]

/-- C13: with no query parameter the list route answers 200 with exactly the
current collection, every record in collection order; and whatever the query
parameters are, the `count` of a list response is the length of its `tasks`. -/
theorem listTasks_no_filter (toLowerCase : String → String) (s : Store) :
    listTasks toLowerCase s ⟨.undefined, .undefined, .undefined⟩
      = .ok 200 { count := s.tasks.length, tasks := s.tasks } ∧
    ∀ (q : Query) (st : Nat) (L : Listing),
      listTasks toLowerCase s q = .ok st L → L.count = L.tasks.length :=
  ⟨rfl, listTasks_count toLowerCase s⟩

/-- The list of the seed records filtered by `priority=high`: one record,
count 1. -/
theorem listTasks_no_filter_witness :
    listTasks asciiLower (initialStore "a" "b" "c") ⟨.undefined, .str "high", .undefined⟩
      = .ok 200 ⟨1, [⟨1, "Learn API Testing", .str "Master Bruno and Postman", false,
          .str "high", "a", none⟩]⟩ ∧
    (1 : Nat) = [(⟨1, "Learn API Testing", .str "Master Bruno and Postman", false,
          .str "high", "a", none⟩ : Task)].length :=
  ⟨rfl,
   (listTasks_no_filter asciiLower (initialStore "a" "b" "c")).2
     ⟨.undefined, .str "high", .undefined⟩ 200
     ⟨1, [⟨1, "Learn API Testing", .str "Master Bruno and Postman", false,
          .str "high", "a", none⟩]⟩ rfl⟩

theorem strictEq_str (v : JsVal) (p : String) : v.strictEq (.str p) = true ↔ v = .str p := by
  cases v <;> simp [JsVal.strictEq]

/-- C14 (as stated, fails): on the seed records the query `priority=` supplies
the empty string as priority; no record has that priority, yet the list route
returns all three records. -/
theorem listTasks_empty_priority_ignored :
    listTasks asciiLower (initialStore "a" "b" "c") (Query.ofStrings none (some "") none)
      = .ok 200 ⟨3, (initialStore "a" "b" "c").tasks⟩ ∧
    ∀ t ∈ (initialStore "a" "b" "c").tasks, t.priority ≠ .str "" := by
  refine ⟨rfl, ?_⟩
  intro t ht
  simp only [initialStore, List.mem_cons, List.mem_singleton, List.not_mem_nil, or_false] at ht
  rcases ht with rfl | rfl | rfl <;>
  · intro h
    simp only [JsVal.str.injEq] at h
    exact absurd h (by decide)

/-- The list route on string parameters, filter by filter: the reply is the
collection filtered by one test, and the test is spelled out. -/
theorem listTasks_keep (toLowerCase : String → String) (s : Store)
    (completed priority search : Option String) :
    ∃ keep : Task → Bool,
      listTasks toLowerCase s (Query.ofStrings completed priority search)
        = .ok 200 { count := (s.tasks.filter keep).length, tasks := s.tasks.filter keep } ∧
      ∀ t, keep t = true ↔
        ((∀ v, completed = some v → t.completed = decide (v = "true")) ∧
         (∀ p, priority = some p → p ≠ "" → t.priority = .str p) ∧
         (∀ x, search = some x → x ≠ "" →
            (toLowerCase x).data <:+: (toLowerCase t.title).data)) := by
  refine ⟨fun t =>
    (match completed with
      | none => true
      | some v => t.completed == decide (v = "true")) &&
    ((match priority with
      | none => true
      | some p => if p = "" then true else t.priority.strictEq (.str p)) &&
    (match search with
      | none => true
      | some x => if x = "" then true
          else includesStr (toLowerCase x).data (toLowerCase t.title).data)), ?_, ?_⟩
  · have hbeq : ∀ v : String, ((JsVal.str v).strictEq (.str "true")) = decide (v = "true") := by
      intro v
      by_cases hv : v = "true" <;> simp [JsVal.strictEq, hv]
    have hne : ∀ v : String, v ≠ "" → (JsVal.str v).truthy = true := fun v h =>
      (truthy_str v).mpr h
    have hemp : (JsVal.str "").truthy = false := by decide
    have h3 : ∀ (f1 f2 f3 : Task → Bool) (l : List Task),
        List.filter f3 (List.filter f2 (List.filter f1 l))
          = List.filter (fun t => f1 t && (f2 t && f3 t)) l := by
      intro f1 f2 f3 l
      rw [List.filter_filter, List.filter_filter]
      apply List.filter_congr
      intro t _
      cases f1 t <;> cases f2 t <;> cases f3 t <;> rfl
    have h2 : ∀ (f1 f2 : Task → Bool) (l : List Task),
        List.filter f2 (List.filter f1 l) = List.filter (fun t => f1 t && f2 t) l := by
      intro f1 f2 l
      rw [List.filter_filter]
      apply List.filter_congr
      intro t _
      cases f1 t <;> cases f2 t <;> rfl
    have hund : JsVal.undefined.truthy = false := rfl
    rcases completed with _ | v <;> rcases priority with _ | p <;> rcases search with _ | x
    · simp [listTasks, Query.ofStrings, hund]
    · by_cases hx : x = ""
      · subst hx
        simp [listTasks, Query.ofStrings, hund, hemp]
      · simp [listTasks, Query.ofStrings, hund, hne x hx, hx]
    · by_cases hp : p = ""
      · subst hp
        simp [listTasks, Query.ofStrings, hund, hemp]
      · simp [listTasks, Query.ofStrings, hund, hne p hp, hp]
    · by_cases hp : p = "" <;> by_cases hx : x = ""
      · subst hp; subst hx
        simp [listTasks, Query.ofStrings, hund, hemp]
      · subst hp
        simp [listTasks, Query.ofStrings, hund, hemp, hne x hx, hx]
      · subst hx
        simp [listTasks, Query.ofStrings, hund, hemp, hne p hp, hp]
      · simp [listTasks, Query.ofStrings, hund, hne p hp, hp, hne x hx, hx, h2]
    · simp [listTasks, Query.ofStrings, hund, hbeq]
    · by_cases hx : x = ""
      · subst hx
        simp [listTasks, Query.ofStrings, hund, hemp, hbeq]
      · simp [listTasks, Query.ofStrings, hund, hne x hx, hx, hbeq, h2]
    · by_cases hp : p = ""
      · subst hp
        simp [listTasks, Query.ofStrings, hund, hemp, hbeq]
      · simp [listTasks, Query.ofStrings, hund, hne p hp, hp, hbeq, h2]
    · by_cases hp : p = "" <;> by_cases hx : x = ""
      · subst hp; subst hx
        simp [listTasks, Query.ofStrings, hund, hemp, hbeq]
      · subst hp
        simp [listTasks, Query.ofStrings, hund, hemp, hne x hx, hx, hbeq, h2]
      · subst hx
        simp [listTasks, Query.ofStrings, hund, hemp, hne p hp, hp, hbeq, h2]
      · have key : ∀ l : List Task,
            List.filter (fun t => includesStr (toLowerCase x).data (toLowerCase t.title).data)
              (List.filter (fun t => t.priority.strictEq (.str p))
                (List.filter (fun t => t.completed == decide (v = "true")) l))
            = List.filter (fun t => (t.completed == decide (v = "true")) &&
                (t.priority.strictEq (.str p) &&
                  includesStr (toLowerCase x).data (toLowerCase t.title).data)) l :=
          fun l => h3 _ _ _ l
        simp only [listTasks, Query.ofStrings, hne p hp, hp, hne x hx, hx, hbeq, key, if_true,
          if_false]
  · intro t
    simp only [Bool.and_eq_true]
    refine and_congr ?_ (and_congr ?_ ?_)
    · cases completed with
      | none => simp
      | some v => simp
    · cases priority with
      | none => simp
      | some p =>
        by_cases hp : p = ""
        · simp [hp]
        · simp [hp, strictEq_str]
    · cases search with
      | none => simp
      | some x =>
        by_cases hx : x = ""
        · simp [hx]
        · simp [hx, includesStr_iff]

theorem forall₂_of_map_eq {f : Char → Char} :
    ∀ {xs run : List Char}, xs.map f = run.map f →
      List.Forall₂ (fun a b => f a = f b) xs run := by
  intro xs
  induction xs with
  | nil =>
    intro run h
    cases run with
    | nil => exact List.Forall₂.nil
    | cons r run => simp at h
  | cons a xs ih =>
    intro run h
    cases run with
    | nil => simp at h
    | cons r run =>
      simp only [List.map_cons, List.cons.injEq] at h
      exact List.Forall₂.cons h.1 (ih h.2)

theorem map_eq_of_forall₂ {f : Char → Char} :
    ∀ {xs run : List Char}, List.Forall₂ (fun a b => f a = f b) xs run →
      xs.map f = run.map f := by
  intro xs run h
  induction h with
  | nil => rfl
  | cons hab _ ih => simp [hab, ih]

theorem map_infix_map_iff (f : Char → Char) (xs ts : List Char) :
    xs.map f <:+: ts.map f ↔
      ∃ run, run <:+: ts ∧ List.Forall₂ (fun a b => f a = f b) xs run := by
  constructor
  · rintro ⟨p, q, h⟩
    obtain ⟨l₁, l₂, hts, h₁, h₂⟩ := List.map_eq_append_iff.mp h.symm
    obtain ⟨l₃, l₄, hl₁, _, h₄⟩ := List.map_eq_append_iff.mp h₁
    refine ⟨l₄, ⟨l₃, l₂, ?_⟩, forall₂_of_map_eq h₄.symm⟩
    rw [hts, hl₁]
  · rintro ⟨run, ⟨p, q, hts⟩, h⟩
    rw [map_eq_of_forall₂ h, ← hts]
    exact ⟨p.map f, q.map f, by simp⟩

/-- C14 (amended): for query parameters that are absent or strings the list
route answers 200 with the records of the collection, in collection order,
that match every supplied filter, and with their number as `count`; a
priority that is the empty string counts as not supplied.  `completed`
matches the records whose `completed` equals "the value is the string true",
`priority` those whose priority is that string exactly, and `search` those in
whose title the search string occurs ignoring letter case: the lower-cased
search string occurs in the lower-cased title, where `toLowerCase` is the
method of the runtime, which on strings of ASCII characters lowers the
letters A to Z.  For ASCII strings this is the same as: a run of the title
equals the search string up to the case of its letters. -/
theorem listTasks_filters (toLowerCase : String → String)
    (hlow : ∀ x : String, isAscii x → toLowerCase x = asciiLower x) (s : Store)
    (completed priority search : Option String) :
    ∃ keep : Task → Bool,
      listTasks toLowerCase s (Query.ofStrings completed priority search)
        = .ok 200 { count := (s.tasks.filter keep).length, tasks := s.tasks.filter keep } ∧
      (∀ t, keep t = true ↔
        ((∀ v, completed = some v → t.completed = decide (v = "true")) ∧
         (∀ p, priority = some p → p ≠ "" → t.priority = .str p) ∧
         (∀ x, search = some x → (toLowerCase x).data <:+: (toLowerCase t.title).data))) ∧
      (∀ x title : String, isAscii x → isAscii title →
        ((toLowerCase x).data <:+: (toLowerCase title).data ↔ occursIgnoringCase x title)) := by
  obtain ⟨keep, hrun, hkeep⟩ := listTasks_keep toLowerCase s completed priority search
  have hempty : toLowerCase "" = "" := by
    rw [hlow "" (fun c hc => absurd hc (List.not_mem_nil c))]
    rfl
  refine ⟨keep, hrun, ?_, ?_⟩
  · intro t
    rw [hkeep t]
    refine and_congr Iff.rfl (and_congr Iff.rfl ?_)
    constructor
    · intro h x hx
      by_cases he : x = ""
      · subst he
        rw [hempty]
        exact List.nil_infix
      · exact h x hx he
    · intro h x hx _
      exact h x hx
  · intro x title hx ht
    rw [hlow x hx, hlow title ht]
    exact map_infix_map_iff Char.toLower x.data title.data

/-- The seed records listed with `completed=false`, `priority=high` and
`search=api`: the one record passing the three filters, its title holding
`API` in capitals; and `api` occurs in that title ignoring letter case. -/
theorem listTasks_filters_witness :
    listTasks asciiLower (initialStore "a" "b" "c")
        (Query.ofStrings (some "false") (some "high") (some "api"))
      = .ok 200 ⟨1, [⟨1, "Learn API Testing", .str "Master Bruno and Postman", false,
          .str "high", "a", none⟩]⟩ ∧
    ((asciiLower "api").data <:+: (asciiLower "Learn API Testing").data ↔
      occursIgnoringCase "api" "Learn API Testing") ∧
    ∃ keep : Task → Bool,
      listTasks asciiLower (initialStore "a" "b" "c")
          (Query.ofStrings (some "false") (some "high") (some "api"))
        = .ok 200 { count := ((initialStore "a" "b" "c").tasks.filter keep).length,
                    tasks := (initialStore "a" "b" "c").tasks.filter keep } ∧
      (∀ t, keep t = true ↔
        ((∀ v, some "false" = some v → t.completed = decide (v = "true")) ∧
         (∀ p, some "high" = some p → p ≠ "" → t.priority = .str p) ∧
         (∀ x, some "api" = some x →
            (asciiLower x).data <:+: (asciiLower t.title).data))) ∧
      (∀ x title : String, isAscii x → isAscii title →
        ((asciiLower x).data <:+: (asciiLower title).data ↔ occursIgnoringCase x title)) :=
  ⟨rfl,
   (listTasks_filters asciiLower (fun _ _ => rfl) (initialStore "a" "b" "c") (some "false")
      (some "high") (some "api")).choose_spec.2.2 "api" "Learn API Testing"
      (by unfold isAscii; decide) (by unfold isAscii; decide),
   listTasks_filters asciiLower (fun _ _ => rfl) (initialStore "a" "b" "c") (some "false")
      (some "high") (some "api")⟩

/-- C15: with the `completed` parameter alone, the list route returns exactly
the completed records, in collection order, when the value is the string
`"true"`, and exactly the records that are not completed for every other
string value. -/
theorem listTasks_completed (toLowerCase : String → String) (s : Store) :
    listTasks toLowerCase s (Query.ofStrings (some "true") none none)
      = .ok 200 { count := (s.tasks.filter (fun t => t.completed)).length
                  tasks := s.tasks.filter (fun t => t.completed) } ∧
    ∀ v : String, v ≠ "true" →
      listTasks toLowerCase s (Query.ofStrings (some v) none none)
        = .ok 200 { count := (s.tasks.filter (fun t => !t.completed)).length
                    tasks := s.tasks.filter (fun t => !t.completed) } := by
  constructor
  · have h : (fun t : Task => t.completed == (JsVal.str "true").strictEq (.str "true"))
        = (fun t : Task => t.completed) := by
      funext t
      cases t.completed <;> rfl
    simp only [listTasks, Query.ofStrings, JsVal.truthy, Bool.false_eq_true, if_false, h]
  · intro v hv
    have hv' : (JsVal.str v).strictEq (.str "true") = false := by
      simp [JsVal.strictEq, hv]
    have h : (fun t : Task => t.completed == (JsVal.str v).strictEq (.str "true"))
        = (fun t : Task => !t.completed) := by
      funext t
      rw [hv']
      cases t.completed <;> rfl
    simp only [listTasks, Query.ofStrings, JsVal.truthy, Bool.false_eq_true, if_false, h]

/-- The seed records listed with `completed=false`, `completed=TRUE` and
`completed=`: each time the two records that are not completed. -/
theorem listTasks_completed_witness :
    listTasks asciiLower (initialStore "a" "b" "c") (Query.ofStrings (some "false") none none)
      = .ok 200 ⟨2, [⟨1, "Learn API Testing", .str "Master Bruno and Postman", false,
          .str "high", "a", none⟩,
        ⟨3, "Write Documentation", .str "Document all endpoints", false, .str "low", "c",
          none⟩]⟩ ∧
    listTasks asciiLower (initialStore "a" "b" "c") (Query.ofStrings (some "TRUE") none none)
      = .ok 200 ⟨2, [⟨1, "Learn API Testing", .str "Master Bruno and Postman", false,
          .str "high", "a", none⟩,
        ⟨3, "Write Documentation", .str "Document all endpoints", false, .str "low", "c",
          none⟩]⟩ ∧
    listTasks asciiLower (initialStore "a" "b" "c") (Query.ofStrings (some "") none none)
      = .ok 200 ⟨2, [⟨1, "Learn API Testing", .str "Master Bruno and Postman", false,
          .str "high", "a", none⟩,
        ⟨3, "Write Documentation", .str "Document all endpoints", false, .str "low", "c",
          none⟩]⟩ :=
  ⟨(listTasks_completed asciiLower (initialStore "a" "b" "c")).2 "false" (by decide),
   (listTasks_completed asciiLower (initialStore "a" "b" "c")).2 "TRUE" (by decide),
   (listTasks_completed asciiLower (initialStore "a" "b" "c")).2 "" (by decide)⟩

/-! ## Statistics -/

theorem length_filter_not (p : Task → Bool) :
    ∀ l : List Task, (l.filter (fun t => !p t)).length = l.length - (l.filter p).length := by
  intro l
  induction l with
  | nil => rfl
  | cons a l ih =>
    have hle : (l.filter p).length ≤ l.length := List.length_filter_le p l
    by_cases h : p a = true
    · simp only [List.filter, h, Bool.not_true, List.length_cons, ih]
      omega
    · simp only [Bool.not_eq_true] at h
      simp only [List.filter, h, Bool.not_false, List.length_cons, ih]
      omega

theorem priorityIs_iff (p : String) (t : Task) :
    Task.priorityIs p t = true ↔ t.priority = .str p := by
  unfold Task.priorityIs
  cases t.priority <;> simp

/-- C16: the stats body has `total` the number of records, `completed` the
number of completed records, `pending` the difference of the two, and
`high`, `medium`, `low` the number of records whose priority is that string,
counted with any test of that property; the route returns this body, with
status 200, for the demo key; on the seed records `total = 3`,
`completed = 1`, `pending = 2`. -/
theorem stats_counts (s : Store) (isHigh isMedium isLow : Task → Bool)
    (hh : ∀ t, isHigh t = true ↔ t.priority = .str "high")
    (hm : ∀ t, isMedium t = true ↔ t.priority = .str "medium")
    (hl : ∀ t, isLow t = true ↔ t.priority = .str "low") :
    (stats s).total = s.tasks.length ∧
    (stats s).completed = s.tasks.countP (fun t => t.completed) ∧
    (stats s).pending = (stats s).total - (stats s).completed ∧
    (stats s).high = s.tasks.countP isHigh ∧
    (stats s).medium = s.tasks.countP isMedium ∧
    (stats s).low = s.tasks.countP isLow ∧
    statsRoute s (some "demo-key-12345") = (.ok 200 (stats s), s) ∧
    ∀ c1 c2 c3 : String,
      (stats (initialStore c1 c2 c3)).total = 3 ∧
      (stats (initialStore c1 c2 c3)).completed = 1 ∧
      (stats (initialStore c1 c2 c3)).pending = 2 := by
  have hcongr : ∀ (p : String) (f : Task → Bool), (∀ t, f t = true ↔ t.priority = .str p) →
      (s.tasks.filter (Task.priorityIs p)).length = s.tasks.countP f := by
    intro p f hf
    rw [List.countP_eq_length_filter]
    congr 1
    apply List.filter_congr
    intro t _
    have h1 := priorityIs_iff p t
    have h2 := hf t
    cases hA : Task.priorityIs p t <;> cases hB : f t <;> simp_all
  refine ⟨rfl, ?_, ?_, hcongr "high" isHigh hh, hcongr "medium" isMedium hm,
    hcongr "low" isLow hl, rfl, fun _ _ _ => ⟨rfl, rfl, rfl⟩⟩
  · exact (List.countP_eq_length_filter _ _).symm
  · exact length_filter_not (fun t => t.completed) s.tasks

/-- The counts of the seed records, the priorities tested with
`Task.priorityIs`. -/
theorem stats_counts_witness :
    (stats (initialStore "a" "b" "c")).high
        = (initialStore "a" "b" "c").tasks.countP (Task.priorityIs "high") ∧
    (stats (initialStore "a" "b" "c")).pending
        = (stats (initialStore "a" "b" "c")).total
          - (stats (initialStore "a" "b" "c")).completed ∧
    (stats (initialStore "a" "b" "c")).total = 3 ∧
    (stats (initialStore "a" "b" "c")).completed = 1 ∧
    (stats (initialStore "a" "b" "c")).pending = 2 :=
  have h := stats_counts (initialStore "a" "b" "c") (Task.priorityIs "high")
    (Task.priorityIs "medium") (Task.priorityIs "low") (priorityIs_iff "high")
    (priorityIs_iff "medium") (priorityIs_iff "low")
  ⟨h.2.2.2.1, h.2.2.1, (h.2.2.2.2.2.2.2 "a" "b" "c").1, (h.2.2.2.2.2.2.2 "a" "b" "c").2.1,
    (h.2.2.2.2.2.2.2 "a" "b" "c").2.2⟩

/-- C18: the stats route answers 401 Unauthorized exactly when the `x-api-key`
header is absent or its value is not the string `demo-key-12345`; with that
value it answers 200 with the stats body. -/
theorem statsRoute_auth (s : Store) (apiKey : Option String) :
    ((statsRoute s apiKey).1 = .err 401 "Unauthorized" ↔
      (apiKey = none ∨ ∃ v, apiKey = some v ∧ v ≠ "demo-key-12345")) ∧
    (statsRoute s (some "demo-key-12345")).1 = .ok 200 (stats s) := by
  refine ⟨?_, rfl⟩
  cases apiKey with
  | none =>
    constructor
    · intro _; exact Or.inl rfl
    · intro _; rfl
  | some v =>
    by_cases hv : v = "demo-key-12345"
    · subst hv
      constructor
      · intro h
        have h2 : (statsRoute s (some "demo-key-12345")).1 = .ok 200 (stats s) := rfl
        rw [h2] at h
        cases h
      · intro h
        rcases h with h | ⟨w, hw, hne⟩
        · cases h
        · simp only [Option.some.injEq] at hw
          exact absurd hw.symm hne
    · constructor
      · intro _
        exact Or.inr ⟨v, rfl, hv⟩
      · intro _
        have ha : authMiddleware (some v) = false := by
          simp [authMiddleware, hv]
        simp only [statsRoute, ha, Bool.false_eq_true, if_false]
        rfl

/-! ## Reading back a created record -/

/-- C20: in every state reached from the initial state, after a create that
succeeds with record T, a get of `T.id` in the state after answers 200 with
exactly T, and the list route without parameters answers with the old
collection followed by T, so that T is its last element. -/
theorem createTask_then_read (toLowerCase : String → String) (c1 c2 c3 : String)
    (ops : List Op) (body : Body) (now : String) (st : Nat) (T : Task)
    (h : (createTask (run (initialStore c1 c2 c3) ops) body now).1 = .ok st T) :
    getTask (createTask (run (initialStore c1 c2 c3) ops) body now).2 T.id = .ok 200 T ∧
    listTasks toLowerCase (createTask (run (initialStore c1 c2 c3) ops) body now).2
        ⟨.undefined, .undefined, .undefined⟩
      = .ok 200 { count := (run (initialStore c1 c2 c3) ops).tasks.length + 1
                  tasks := (run (initialStore c1 c2 c3) ops).tasks ++ [T] } ∧
    ((run (initialStore c1 c2 c3) ops).tasks ++ [T]).getLast? = some T := by
  have hfresh := idsFresh_run ops _ (idsFresh_initialStore c1 c2 c3)
  generalize run (initialStore c1 c2 c3) ops = s at h hfresh ⊢
  rcases createTask_cases s body now with ⟨st', e, hc⟩ | ⟨t, ht, hc⟩
  · rw [hc] at h; cases h
  · rw [hc] at h
    simp only [Reply.ok.injEq] at h
    obtain ⟨_, rfl⟩ := h
    rw [hc]
    refine ⟨?_, ?_, ?_⟩
    · have hnone : s.tasks.find? (fun u => u.id == t.id) = none := by
        rw [List.find?_eq_none]
        intro u hu
        have hlt : u.id < s.nextId := hfresh.2 u.id (List.mem_map_of_mem _ hu)
        have : u.id ≠ t.id := by omega
        simpa using this
      simp only [getTask, List.find?_append, hnone, Option.or, List.find?, beq_self_eq_true]
    · simp [listTasks, JsVal.truthy]
    · simp

/-- Create `{title: "X"}` on the initial state, then get 4 and list. -/
theorem createTask_then_read_witness :
    getTask (createTask (run (initialStore "a" "b" "c") [])
        ⟨.str "X", .undefined, .undefined, .undefined⟩ "n").2 4
      = .ok 200 ⟨4, "X", .str "", false, .str "medium", "n", none⟩ ∧
    listTasks asciiLower (createTask (run (initialStore "a" "b" "c") [])
        ⟨.str "X", .undefined, .undefined, .undefined⟩ "n").2
        ⟨.undefined, .undefined, .undefined⟩
      = .ok 200 { count := (run (initialStore "a" "b" "c") []).tasks.length + 1
                  tasks := (run (initialStore "a" "b" "c") []).tasks
                    ++ [⟨4, "X", .str "", false, .str "medium", "n", none⟩] } ∧
    ((run (initialStore "a" "b" "c") []).tasks
        ++ [(⟨4, "X", .str "", false, .str "medium", "n", none⟩ : Task)]).getLast?
      = some ⟨4, "X", .str "", false, .str "medium", "n", none⟩ :=
  createTask_then_read asciiLower "a" "b" "c" [] ⟨.str "X", .undefined, .undefined, .undefined⟩
    "n" 201 ⟨4, "X", .str "", false, .str "medium", "n", none⟩ rfl

/-! ## The `updatedAt` stamp -/

theorem updateFirst_split {p : Task → Bool} (f : Task → Task) {d : Task} (post : List Task)
    (hd : p d = true) :
    ∀ pre : List Task, (∀ u ∈ pre, p u = false) →
      updateFirst p f (pre ++ d :: post) = pre ++ f d :: post := by
  intro pre
  induction pre with
  | nil => intro _; simp [updateFirst, hd]
  | cons a pre ih =>
    intro h
    have ha : p a = false := h a (List.mem_cons_self _ _)
    have ih' := ih (fun u hu => h u (List.mem_cons_of_mem _ hu))
    simp [updateFirst, ha, ih']

theorem set_split {α : Type} (pre : List α) (d u : α) (post : List α) :
    (pre ++ d :: post).set pre.length u = pre ++ u :: post := by
  induction pre with
  | nil => rfl
  | cons a pre ih => simp [ih]

theorem createTask_cases_stamp (s : Store) (body : Body) (now : String) :
    (∃ st e, createTask s body now = (.err st e, s)) ∨
    (∃ t : Task, t.id = s.nextId ∧ t.updatedAt = none ∧
      createTask s body now = (.ok 201 t, { tasks := s.tasks ++ [t], nextId := s.nextId + 1 })) := by
  unfold createTask
  split
  · exact Or.inl ⟨_, _, rfl⟩
  · split
    · exact Or.inl ⟨_, _, rfl⟩
    · split
      · exact Or.inl ⟨_, _, rfl⟩
      · split
        · exact Or.inl ⟨_, _, rfl⟩
        · exact Or.inr ⟨_, rfl, rfl, rfl⟩

theorem replaceTask_cases (s : Store) (id : Int) (body : Body) (now : String) :
    (∃ st e, replaceTask s id body now = (.err st e, s)) ∨
    (∃ pre old post upd, s.tasks = pre ++ old :: post ∧ old.id = id ∧ upd.id = old.id ∧
      upd.updatedAt = some now ∧
      replaceTask s id body now
        = (.ok 200 upd, { tasks := pre ++ upd :: post, nextId := s.nextId })) := by
  by_cases hid : ∃ t ∈ s.tasks, (fun t : Task => t.id == id) t = true
  · obtain ⟨pre, old, post, hl, hold, _, hidx⟩ := findIndex_split _ s.tasks hid
    have hget : s.tasks[pre.length]? = some old := by rw [hl]; exact getElem?_split _ _ _
    have hset : ∀ u, s.tasks.set pre.length u = pre ++ u :: post := by
      intro u; rw [hl]; exact set_split _ _ _ _
    unfold replaceTask
    rw [hidx]
    simp only
    split
    · exact Or.inl ⟨_, _, rfl⟩
    · split
      · exact Or.inl ⟨_, _, rfl⟩
      · split
        · exact Or.inl ⟨_, _, rfl⟩
        · simp only [hget, hset]
          refine Or.inr ⟨pre, old, post, _, hl, ?_, ?_, ?_, rfl⟩
          · simpa using hold
          · rfl
          · rfl
  · have hnone : findIndex (fun t => t.id == id) s.tasks = none := by
      rw [findIndex_eq_none]
      intro t ht
      by_contra hp
      exact hid ⟨t, ht, by simpa using hp⟩
    left
    unfold replaceTask
    rw [hnone]
    exact ⟨_, _, rfl⟩

theorem toggleTask_cases (s : Store) (id : Int) (now : String) :
    (∃ st e, toggleTask s id now = (.err st e, s)) ∨
    (∃ pre old post upd, s.tasks = pre ++ old :: post ∧ old.id = id ∧ upd.id = old.id ∧
      upd.updatedAt = some now ∧
      toggleTask s id now
        = (.ok 200 upd, { tasks := pre ++ upd :: post, nextId := s.nextId })) := by
  by_cases hid : ∃ t ∈ s.tasks, (fun t : Task => t.id == id) t = true
  · obtain ⟨pre, old, post, hl, hold, hpre, _⟩ := findIndex_split _ s.tasks hid
    have hfind : s.tasks.find? (fun t => t.id == id) = some old := by
      rw [hl, List.find?_append]
      have h1 : pre.find? (fun t => t.id == id) = none := by
        rw [List.find?_eq_none]
        intro u hu
        have hu2 : (u.id == id) = false := hpre u hu
        simp [hu2]
      have hold2 : (old.id == id) = true := hold
      simp only [h1, Option.or, List.find?, hold2]
    right
    have hrun := toggleTask_of_find now hfind
    rw [hl, updateFirst_split _ _ hold pre hpre] at hrun
    refine ⟨pre, old, post, _, hl, ?_, ?_, ?_, hrun⟩
    · simpa using hold
    · rfl
    · rfl
  · have hnone : s.tasks.find? (fun t => t.id == id) = none := by
      rw [List.find?_eq_none]
      intro t ht hp
      exact hid ⟨t, ht, hp⟩
    left
    unfold toggleTask
    rw [hnone]
    exact ⟨_, _, rfl⟩

theorem stamped_touch {s : Store} {T : List Int} (h : Stamped s T)
    {pre post : List Task} {old upd : Task} {now : String}
    (hl : s.tasks = pre ++ old :: post) (hid : upd.id = old.id)
    (hup : upd.updatedAt = some now) :
    Stamped { tasks := pre ++ upd :: post, nextId := s.nextId } (T ++ [old.id]) := by
  obtain ⟨hfresh, hiff, hlt⟩ := h
  have hids : (Store.mk (pre ++ upd :: post) s.nextId).ids = s.ids := by
    simp [Store.ids, hl, hid]
  have hpw := pairwise_ids hfresh
  rw [hl] at hpw
  have hold : old ∈ s.tasks := by rw [hl]; simp
  refine ⟨⟨by rw [hids]; exact hfresh.1, by rw [hids]; exact hfresh.2⟩, ?_, ?_⟩
  · intro t ht
    simp only [List.mem_append, List.mem_cons, List.mem_singleton, List.not_mem_nil,
      or_false] at ht ⊢
    have hother : t ∈ pre ++ post →
        (t.updatedAt ≠ none ↔ t.id ∈ T ∨ t.id = old.id) := by
      intro hmem
      have hne := split_unique hpw t hmem
      have hin : t ∈ s.tasks := by
        rw [hl]
        rcases List.mem_append.mp hmem with h1 | h1
        · exact List.mem_append_left _ h1
        · exact List.mem_append_right _ (List.mem_cons_of_mem _ h1)
      rw [hiff t hin]
      constructor
      · exact Or.inl
      · intro h1
        rcases h1 with h1 | h1
        · exact h1
        · exact absurd h1 hne
    rcases ht with ht | ht | ht
    · exact hother (List.mem_append_left _ ht)
    · subst ht
      constructor
      · intro _; exact Or.inr hid
      · intro _; rw [hup]; exact Option.some_ne_none _
    · exact hother (List.mem_append_right _ ht)
  · intro i hi
    rcases List.mem_append.mp hi with hi | hi
    · exact hlt i hi
    · simp only [List.mem_singleton] at hi
      rw [hi]
      exact hfresh.2 old.id (List.mem_map_of_mem _ hold)

theorem stamped_step (s : Store) (op : Op) (T : List Int) (h : Stamped s T) :
    Stamped (step s op) (T ++ (touchedId s op).toList) := by
  have same : Stamped s (T ++ (none : Option Int).toList) := by
    simpa [Option.toList] using h
  cases op with
  | list q => exact same
  | get id => exact same
  | stats apiKey =>
    simp only [step, statsRoute_store]
    exact same
  | create body now =>
    rcases createTask_cases_stamp s body now with ⟨st, e, hc⟩ | ⟨t, hid, hup, hc⟩
    · simp only [step, touchedId, hc]
      exact same
    · simp only [step, touchedId, hc, Option.toList, List.append_nil]
      obtain ⟨hfresh, hiff, hlt⟩ := h
      have hstep : IdsFresh (step s (.create body now)) := idsFresh_step s _ hfresh
      simp only [step, hc] at hstep
      refine ⟨hstep, ?_, ?_⟩
      · intro u hu
        simp only [List.mem_append, List.mem_singleton] at hu
        rcases hu with hu | hu
        · exact hiff u hu
        · subst hu
          constructor
          · intro h1; exact absurd hup h1
          · intro h1
            have := hlt _ h1
            omega
      · intro i hi
        have := hlt i hi
        show i < s.nextId + 1
        omega
  | delete id =>
    obtain ⟨hfresh, hiff, hlt⟩ := h
    have hstep : IdsFresh (step s (.delete id)) := idsFresh_step s _ hfresh
    have hsub : ∀ t ∈ (step s (.delete id)).tasks, t ∈ s.tasks := by
      simp only [step]
      unfold deleteTask
      split
      · exact fun t ht => ht
      · split
        · exact fun t ht => (List.eraseIdx_sublist _ _).subset ht
        · exact fun t ht => ht
    have hn : (step s (.delete id)).nextId = s.nextId := (deleteTask_ids s id).2
    simp only [touchedId, Option.toList, List.append_nil]
    exact ⟨hstep, fun t ht => hiff t (hsub t ht), fun i hi => by rw [hn]; exact hlt i hi⟩
  | replace id body now =>
    rcases replaceTask_cases s id body now with ⟨st, e, hc⟩ | ⟨pre, old, post, upd, hl, ho, hu, hup, hc⟩
    · simp only [step, touchedId, hc]
      exact same
    · simp only [step, touchedId, hc, Option.toList]
      rw [← ho]
      exact stamped_touch h hl hu hup
  | toggle id now =>
    rcases toggleTask_cases s id now with ⟨st, e, hc⟩ | ⟨pre, old, post, upd, hl, ho, hu, hup, hc⟩
    · simp only [step, touchedId, hc]
      exact same
    · simp only [step, touchedId, hc, Option.toList]
      rw [← ho]
      exact stamped_touch h hl hu hup

theorem stamped_run (ops : List Op) :
    ∀ (s : Store) (T : List Int), Stamped s T → Stamped (run s ops) (T ++ touchedIds s ops) := by
  induction ops with
  | nil => intro s T h; simpa [run, touchedIds] using h
  | cons op ops ih =>
    intro s T h
    have h1 := ih (step s op) _ (stamped_step s op T h)
    simpa [run, touchedIds, List.append_assoc] using h1

theorem stamped_initialStore (c1 c2 c3 : String) : Stamped (initialStore c1 c2 c3) [] := by
  refine ⟨idsFresh_initialStore c1 c2 c3, ?_, ?_⟩
  · intro t ht
    simp only [initialStore, List.mem_cons, List.mem_singleton, List.not_mem_nil,
      or_false] at ht
    rcases ht with rfl | rfl | rfl <;> simp
  · intro i hi; cases hi

/-- C19: in every state reached from the initial state, a record carries
`updatedAt` exactly when the run holds a successful replace or toggle of its
id; ids are never reused, so such a request acted on this very record after
it entered the collection.  Seed records and created records start without
the stamp, and a request on another id does not add it. -/
theorem updatedAt_iff_touched (c1 c2 c3 : String) (ops : List Op) :
    ∀ t ∈ (run (initialStore c1 c2 c3) ops).tasks,
      (t.updatedAt ≠ none ↔ t.id ∈ touchedIds (initialStore c1 c2 c3) ops) := by
  have h := stamped_run ops _ _ (stamped_initialStore c1 c2 c3)
  simpa using h.2.1

/-- A run with a create, a toggle of 2, a replace of 4, a toggle of an absent
id and a replace of 1 with a blank title: records 2 and 4 carry `updatedAt`,
record 1 does not. -/
theorem updatedAt_iff_touched_witness :
    touchedIds (initialStore "a" "b" "c")
        [.create ⟨.str "X", .undefined, .undefined, .undefined⟩ "t1", .toggle 2 "t2",
         .replace 4 ⟨.str "Y", .undefined, .undefined, .undefined⟩ "t3", .toggle 9999 "t4",
         .replace 1 ⟨.str " ", .undefined, .undefined, .undefined⟩ "t5"] = [2, 4] ∧
    ((some "t2" : Option String) ≠ none ↔ (2 : Int) ∈ touchedIds (initialStore "a" "b" "c")
        [.create ⟨.str "X", .undefined, .undefined, .undefined⟩ "t1", .toggle 2 "t2",
         .replace 4 ⟨.str "Y", .undefined, .undefined, .undefined⟩ "t3", .toggle 9999 "t4",
         .replace 1 ⟨.str " ", .undefined, .undefined, .undefined⟩ "t5"]) ∧
    ((none : Option String) ≠ none ↔ (1 : Int) ∈ touchedIds (initialStore "a" "b" "c")
        [.create ⟨.str "X", .undefined, .undefined, .undefined⟩ "t1", .toggle 2 "t2",
         .replace 4 ⟨.str "Y", .undefined, .undefined, .undefined⟩ "t3", .toggle 9999 "t4",
         .replace 1 ⟨.str " ", .undefined, .undefined, .undefined⟩ "t5"]) :=
  ⟨rfl,
   updatedAt_iff_touched "a" "b" "c"
     [.create ⟨.str "X", .undefined, .undefined, .undefined⟩ "t1", .toggle 2 "t2",
      .replace 4 ⟨.str "Y", .undefined, .undefined, .undefined⟩ "t3", .toggle 9999 "t4",
      .replace 1 ⟨.str " ", .undefined, .undefined, .undefined⟩ "t5"]
     ⟨2, "Build Demo API", .str "Create a testable REST API", false, .str "medium", "b",
       some "t2"⟩
     (List.Mem.tail _ (List.Mem.head _)),
   updatedAt_iff_touched "a" "b" "c"
     [.create ⟨.str "X", .undefined, .undefined, .undefined⟩ "t1", .toggle 2 "t2",
      .replace 4 ⟨.str "Y", .undefined, .undefined, .undefined⟩ "t3", .toggle 9999 "t4",
      .replace 1 ⟨.str " ", .undefined, .undefined, .undefined⟩ "t5"]
     ⟨1, "Learn API Testing", .str "Master Bruno and Postman", false, .str "high", "a", none⟩
     (List.Mem.head _)⟩

/-! ## The completion rate -/

theorem roundHalfEven_err (a b : Nat) (hb : 0 < b) :
    2 * |((roundHalfEven a b : Nat) : ℤ) * b - a| ≤ b := by
  have h1 := Nat.div_add_mod a b
  have h2 := Nat.mod_lt a hb
  have h3 : (a : ℤ) = b * (a / b : Nat) + (a % b : Nat) := by exact_mod_cast h1.symm
  have hr : (0 : ℤ) ≤ (a % b : Nat) := Int.natCast_nonneg _
  have hrb : ((a % b : Nat) : ℤ) < b := by exact_mod_cast h2
  have down : 2 * (a % b) ≤ b → 2 * |((a / b : Nat) : ℤ) * b - a| ≤ b := by
    intro h
    have h' : 2 * ((a % b : Nat) : ℤ) ≤ b := by exact_mod_cast h
    have e : ((a / b : Nat) : ℤ) * b - a = -((a % b : Nat) : ℤ) := by
      rw [h3]; push_cast; ring
    rw [e, abs_neg, abs_of_nonneg hr]
    exact h'
  have up : b ≤ 2 * (a % b) → 2 * |((a / b + 1 : Nat) : ℤ) * b - a| ≤ b := by
    intro h
    have h' : (b : ℤ) ≤ 2 * ((a % b : Nat) : ℤ) := by exact_mod_cast h
    have e : ((a / b + 1 : Nat) : ℤ) * b - a = b - ((a % b : Nat) : ℤ) := by
      rw [h3]; push_cast; ring
    rw [e, abs_of_nonneg (by linarith)]
    linarith
  unfold roundHalfEven
  split_ifs with c1 c2 c3
  · exact down (by omega)
  · exact up (by omega)
  · exact down (by omega)
  · exact up (by omega)

theorem normalize_spec : ∀ (fuel a b : Nat), 2 ^ 52 * b ≤ a * 2 ^ fuel →
    a < 2 ^ 53 * b * 2 ^ fuel →
    ∃ i j, normalize fuel a b = (a * 2 ^ i, b * 2 ^ j) ∧
      2 ^ 52 * (b * 2 ^ j) ≤ a * 2 ^ i ∧ a * 2 ^ i < 2 ^ 53 * (b * 2 ^ j) := by
  intro fuel
  induction fuel with
  | zero =>
    intro a b h1 h2
    exact ⟨0, 0, by simp [normalize], by simpa using h1, by simpa using h2⟩
  | succ fuel ih =>
    intro a b h1 h2
    unfold normalize
    split_ifs with c1 c2
    · have e1 : 2 ^ 52 * b ≤ 2 * a * 2 ^ fuel := by
        calc 2 ^ 52 * b ≤ a * 2 ^ (fuel + 1) := h1
          _ = 2 * a * 2 ^ fuel := by ring
      have e2 : 2 * a < 2 ^ 53 * b * 2 ^ fuel := by
        have : 2 * a < 2 ^ 53 * b := by
          have : 2 * a < 2 * (2 ^ 52 * b) := by omega
          calc 2 * a < 2 * (2 ^ 52 * b) := this
            _ = 2 ^ 53 * b := by ring
        calc 2 * a < 2 ^ 53 * b := this
          _ ≤ 2 ^ 53 * b * 2 ^ fuel := Nat.le_mul_of_pos_right _ (by positivity)
      obtain ⟨i, j, hn, hlo, hhi⟩ := ih (2 * a) b e1 e2
      refine ⟨i + 1, j, ?_, ?_, ?_⟩
      · rw [hn]; congr 1; ring
      · calc 2 ^ 52 * (b * 2 ^ j) ≤ 2 * a * 2 ^ i := hlo
          _ = a * 2 ^ (i + 1) := by ring
      · calc a * 2 ^ (i + 1) = 2 * a * 2 ^ i := by ring
          _ < 2 ^ 53 * (b * 2 ^ j) := hhi
    · have e1 : 2 ^ 52 * (2 * b) ≤ a * 2 ^ fuel := by
        calc 2 ^ 52 * (2 * b) = 2 ^ 53 * b := by ring
          _ ≤ a := c2
          _ ≤ a * 2 ^ fuel := Nat.le_mul_of_pos_right _ (by positivity)
      have e2 : a < 2 ^ 53 * (2 * b) * 2 ^ fuel := by
        calc a < 2 ^ 53 * b * 2 ^ (fuel + 1) := h2
          _ = 2 ^ 53 * (2 * b) * 2 ^ fuel := by ring
      obtain ⟨i, j, hn, hlo, hhi⟩ := ih a (2 * b) e1 e2
      refine ⟨i, j + 1, ?_, ?_, ?_⟩
      · rw [hn]; congr 1; ring
      · calc 2 ^ 52 * (b * 2 ^ (j + 1)) = 2 ^ 52 * (2 * b * 2 ^ j) := by ring
          _ ≤ a * 2 ^ i := hlo
      · calc a * 2 ^ i < 2 ^ 53 * (2 * b * 2 ^ j) := hhi
          _ = 2 ^ 53 * (b * 2 ^ (j + 1)) := by ring
    · exact ⟨0, 0, by simp, by simpa using Nat.le_of_not_lt c1, by simpa using Nat.lt_of_not_le c2⟩

theorem nearestDouble_err (a b : Nat) (ha : 0 < a) (hb : 0 < b) :
    0 < (nearestDouble a b).den ∧
    |((nearestDouble a b).num : ℚ) / (nearestDouble a b).den - a / b| ≤ (a / b : ℚ) / 2 ^ 53 := by
  have hlo : 2 ^ 52 * b ≤ a * 2 ^ (a + b + 53) := by
    calc 2 ^ 52 * b ≤ 2 ^ 52 * 2 ^ b := Nat.mul_le_mul_left _ (le_of_lt (Nat.lt_two_pow b))
      _ = 2 ^ (52 + b) := (pow_add 2 52 b).symm
      _ ≤ 2 ^ (a + b + 53) := Nat.pow_le_pow_right (by decide) (by omega)
      _ = 1 * 2 ^ (a + b + 53) := (Nat.one_mul _).symm
      _ ≤ a * 2 ^ (a + b + 53) := Nat.mul_le_mul_right _ ha
  have hhi : a < 2 ^ 53 * b * 2 ^ (a + b + 53) := by
    calc a < 2 ^ a := Nat.lt_two_pow a
      _ ≤ 2 ^ (a + b + 53) := Nat.pow_le_pow_right (by decide) (by omega)
      _ = 1 * 2 ^ (a + b + 53) := (Nat.one_mul _).symm
      _ ≤ 2 ^ 53 * b * 2 ^ (a + b + 53) :=
        Nat.mul_le_mul_right _ (Nat.mul_pos (by positivity) hb)
  obtain ⟨i, j, hn, hlo2, hhi2⟩ := normalize_spec (a + b + 53) a b hlo hhi
  have hB : 0 < b * 2 ^ j := Nat.mul_pos hb (by positivity)
  have hA : 0 < a * 2 ^ i := Nat.mul_pos ha (by positivity)
  have hround := roundHalfEven_err (a * 2 ^ i) (b * 2 ^ j) hB
  have hdef : nearestDouble a b
      = ⟨roundHalfEven (a * 2 ^ i) (b * 2 ^ j) * a * (b * 2 ^ j), b * (a * 2 ^ i)⟩ := by
    simp only [nearestDouble, Nat.pos_iff_ne_zero.mp ha, if_false, hn]
  generalize roundHalfEven (a * 2 ^ i) (b * 2 ^ j) = m at hround hdef
  rw [hdef]
  simp only
  generalize a * 2 ^ i = A at *
  generalize b * 2 ^ j = B at *
  have hAq : (0 : ℚ) < A := by exact_mod_cast hA
  have hBq : (0 : ℚ) < B := by exact_mod_cast hB
  have haq : (0 : ℚ) < a := by exact_mod_cast ha
  have hbq : (0 : ℚ) < b := by exact_mod_cast hb
  have hlo3 : (2 : ℚ) ^ 52 * B ≤ A := by exact_mod_cast hlo2
  have hr : 2 * |(m : ℚ) * B - A| ≤ B := by
    have : ((2 * |(m : ℤ) * B - A| : ℤ) : ℚ) ≤ ((B : ℤ) : ℚ) := by exact_mod_cast hround
    push_cast at this
    exact this
  refine ⟨Nat.mul_pos hb hA, ?_⟩
  have e : ((m * a * B : Nat) : ℚ) / ((b * A : Nat) : ℚ) - a / b
      = (a / b : ℚ) * (((m : ℚ) * B - A) / A) := by
    push_cast
    field_simp
    ring
  rw [e, abs_mul, abs_of_pos (div_pos haq hbq), abs_div, abs_of_pos hAq, div_eq_mul_inv (a / b : ℚ)]
  apply mul_le_mul_of_nonneg_left _ (le_of_lt (div_pos haq hbq))
  rw [div_le_iff₀ hAq]
  have h53 : ((2 : ℚ) ^ 53)⁻¹ * A = A / 2 ^ 53 := by ring
  rw [h53, le_div_iff₀ (by positivity)]
  calc |(m : ℚ) * B - A| * (2 : ℚ) ^ 53
        = 2 * |(m : ℚ) * B - A| * (2 : ℚ) ^ 52 := by rw [pow_succ]; ring
    _ ≤ (B : ℚ) * (2 : ℚ) ^ 52 := mul_le_mul_of_nonneg_right hr (by positivity)
    _ = (2 : ℚ) ^ 52 * B := mul_comm _ _
    _ ≤ (A : ℚ) := hlo3

theorem tenths_err (x : Double) (hd : 0 < x.den) :
    |(tenths x : ℚ) - 10 * (x.num / x.den)| ≤ 1 / 2 := by
  have h2 : 0 < 2 * x.den := by omega
  have h1 := Nat.div_add_mod (20 * x.num + x.den) (2 * x.den)
  have h3 := Nat.mod_lt (20 * x.num + x.den) h2
  unfold tenths
  generalize (20 * x.num + x.den) / (2 * x.den) = k at *
  generalize (20 * x.num + x.den) % (2 * x.den) = r at *
  have hdq : (0 : ℚ) < x.den := by exact_mod_cast hd
  have e1 : (2 * (x.den : ℚ)) * k + r = 20 * x.num + x.den := by exact_mod_cast h1
  have e3 : (r : ℚ) < 2 * x.den := by exact_mod_cast h3
  have e0 : (0 : ℚ) ≤ r := by positivity
  have hX : (x.num : ℚ) / x.den = (2 * (x.den : ℚ) * k + r - x.den) / (20 * x.den) := by
    rw [e1]; field_simp; ring
  have e : (k : ℚ) - 10 * ((x.num : ℚ) / x.den) = 1 / 2 - r / (2 * x.den) := by
    rw [hX]; field_simp; ring
  have hr0 : (0 : ℚ) ≤ r / (2 * x.den) := div_nonneg e0 (by positivity)
  have hr1 : (r : ℚ) / (2 * x.den) < 1 := (div_lt_one (by positivity)).mpr e3
  rw [e, abs_le]
  constructor <;> linarith

theorem rate_nearest (c n : Nat) (hn : 0 < n) (hcn : c ≤ n) (hn32 : n < 2 ^ 32) :
    2 * |(n : ℤ) * (tenths (fmul (fdiv c n) 100) : Nat) - 1000 * c| ≤ n := by
  rcases Nat.eq_zero_or_pos c with rfl | hc
  · have : tenths (fmul (fdiv 0 n) 100) = 0 := by
      simp [fdiv, fmul, nearestDouble, tenths]
    rw [this]; simp
  · have hnq : (0 : ℚ) < n := by exact_mod_cast hn
    have hcq : (0 : ℚ) < c := by exact_mod_cast hc
    have hcnq : (c : ℚ) ≤ n := by exact_mod_cast hcn
    have hn32q : (n : ℚ) < 2 ^ 32 := by exact_mod_cast hn32
    obtain ⟨hqd, hqe⟩ := nearestDouble_err c n hc hn
    have hq : fdiv c n = nearestDouble c n := rfl
    rw [← hq] at hqd hqe
    generalize fdiv c n = q at hqd hqe ⊢
    have hqdq : (0 : ℚ) < q.den := by exact_mod_cast hqd
    have hr0 : (0 : ℚ) < (c : ℚ) / n := div_pos hcq hnq
    have hr1 : (c : ℚ) / n ≤ 1 := (div_le_one hnq).mpr hcnq
    have heps : (0 : ℚ) < 1 / 2 ^ 53 := by positivity
    have heps1 : (1 : ℚ) / 2 ^ 53 < 1 / 2 ^ 21 / 6000 := by norm_num
    rw [abs_le] at hqe
    have hQpos : (0 : ℚ) < (q.num : ℚ) / q.den := by
      have : (c : ℚ) / n / 2 ^ 53 < (c : ℚ) / n := by
        rw [div_lt_iff₀ (by positivity)]
        have : (1 : ℚ) < 2 ^ 53 := by norm_num
        nlinarith
      linarith [hqe.1]
    have hqnum : 0 < q.num := by
      by_contra h0
      have : q.num = 0 := by omega
      rw [this] at hQpos
      simp at hQpos
    have hqn100 : 0 < q.num * 100 := by omega
    obtain ⟨hxd, hxe⟩ := nearestDouble_err (q.num * 100) q.den hqn100 hqd
    have hx : fmul q 100 = nearestDouble (q.num * 100) q.den := rfl
    rw [← hx] at hxd hxe
    generalize fmul q 100 = x at hxd hxe ⊢
    have ht := tenths_err x hxd
    generalize tenths x = k at ht ⊢
    have hcast : ((q.num * 100 : Nat) : ℚ) / q.den = 100 * ((q.num : ℚ) / q.den) := by
      push_cast; ring
    rw [hcast, abs_le] at hxe
    rw [abs_le] at ht
    generalize (q.num : ℚ) / q.den = Q at hqe hxe hQpos
    generalize (x.num : ℚ) / x.den = X at hxe ht
    have hd : |(k : ℚ) - 1000 * ((c : ℚ) / n)| ≤ 1 / 2 + 3000 * ((c : ℚ) / n) / 2 ^ 53 := by
      generalize (c : ℚ) / n = r at hqe hr0 hr1
      have e1 : r / 2 ^ 53 ≤ r := by
        rw [div_le_iff₀ (by positivity)]
        have : (1 : ℚ) ≤ 2 ^ 53 := by norm_num
        nlinarith
      have hQ2 : Q ≤ 2 * r := by linarith [hqe.2]
      have e2 : 100 * Q / 2 ^ 53 ≤ 200 * r / 2 ^ 53 := by
        apply div_le_div_of_nonneg_right _ (by positivity)
        linarith
      rw [abs_le]
      constructor
      · have := hxe.1
        have := hqe.1
        have := ht.1
        have e3 : 3000 * r / 2 ^ 53 = 10 * (200 * r / 2 ^ 53) + 1000 * (r / 2 ^ 53) := by ring
        linarith
      · have := hxe.2
        have := hqe.2
        have := ht.2
        have e3 : 3000 * r / 2 ^ 53 = 10 * (200 * r / 2 ^ 53) + 1000 * (r / 2 ^ 53) := by ring
        linarith
    have e : (n : ℚ) * k - 1000 * c = n * ((k : ℚ) - 1000 * ((c : ℚ) / n)) := by
      field_simp
      ring
    have hfin : 2 * |(n : ℚ) * k - 1000 * c| < n + 1 := by
      rw [e, abs_mul, abs_of_pos hnq]
      have h1 : (n : ℚ) * |(k : ℚ) - 1000 * ((c : ℚ) / n)|
          ≤ n * (1 / 2 + 3000 * ((c : ℚ) / n) / 2 ^ 53) :=
        mul_le_mul_of_nonneg_left hd (le_of_lt hnq)
      have h2 : (n : ℚ) * (1 / 2 + 3000 * ((c : ℚ) / n) / 2 ^ 53)
          = n / 2 + 3000 * c / 2 ^ 53 := by
        field_simp
        ring
      have h3 : 3000 * (c : ℚ) / 2 ^ 53 < 1 / 2 := by
        rw [div_lt_iff₀ (by positivity)]
        have : (c : ℚ) < 2 ^ 32 := lt_of_le_of_lt hcnq hn32q
        norm_num at this ⊢
        linarith
      linarith
    have hz : ((2 * |(n : ℤ) * (k : ℤ) - 1000 * (c : ℤ)| : ℤ) : ℚ) < ((n + 1 : ℤ) : ℚ) := by
      push_cast
      exact hfin
    have hz2 : 2 * |(n : ℤ) * (k : ℤ) - 1000 * (c : ℤ)| < (n : ℤ) + 1 := by exact_mod_cast hz
    omega

/-- C17: the completion rate is the string `"0%"` when the collection is
empty; otherwise, for a collection within the length limit of a JavaScript
array, it is the decimal numeral, with one digit after the point, of a number
`k / 10` that is a nearest multiple of one tenth to
`100 * completed / total`, followed by `"%"`; on the seed records it is
`"33.3%"`.  It is the `completionRate` field of the stats body. -/
theorem completionRate_rounded (s : Store) :
    (s.tasks = [] → completionRate s = "0%") ∧
    (s.tasks ≠ [] → s.tasks.length < 2 ^ 32 →
      ∃ k : Nat,
        completionRate s = Nat.repr (k / 10) ++ "." ++ Nat.repr (k % 10) ++ "%" ∧
        |(k : ℚ) / 10 - 100 * (s.tasks.countP (fun t => t.completed) : ℚ) / s.tasks.length|
          ≤ 1 / 20) ∧
    (∀ c1 c2 c3 : String, completionRate (initialStore c1 c2 c3) = "33.3%") ∧
    (stats s).completionRate = completionRate s := by
  have hseed : (if (3 : Nat) > 0 then toFixed1 (fmul (fdiv 1 3) 100) ++ "%" else "0%")
      = "33.3%" := by decide
  refine ⟨?_, ?_, fun c1 c2 c3 => hseed, rfl⟩
  · intro h
    simp [completionRate, h]
  · intro hne h32
    have hpos : 0 < s.tasks.length := List.length_pos.mpr hne
    have hle : (s.tasks.filter (fun t => t.completed)).length ≤ s.tasks.length :=
      List.length_filter_le _ _
    have hk := rate_nearest _ _ hpos hle h32
    rw [List.countP_eq_length_filter]
    refine ⟨tenths (fmul (fdiv (s.tasks.filter (fun t => t.completed)).length
      s.tasks.length) 100), ?_, ?_⟩
    · simp only [completionRate, hpos, gt_iff_lt, if_true, toFixed1]
    · generalize tenths (fmul (fdiv (s.tasks.filter (fun t => t.completed)).length
        s.tasks.length) 100) = k at hk
      generalize (s.tasks.filter (fun t => t.completed)).length = c at hk
      generalize s.tasks.length = n at hk hpos
      have hnq : (0 : ℚ) < n := by exact_mod_cast hpos
      have hq : 2 * |(n : ℚ) * k - 1000 * c| ≤ n := by
        have : ((2 * |(n : ℤ) * (k : ℤ) - 1000 * (c : ℤ)| : ℤ) : ℚ) ≤ ((n : ℤ) : ℚ) := by
          exact_mod_cast hk
        push_cast at this
        exact this
      have e : (k : ℚ) / 10 - 100 * (c : ℚ) / n = ((n : ℚ) * k - 1000 * c) / (10 * n) := by
        field_simp
        ring
      rw [e, abs_div, abs_of_pos (by positivity : (0 : ℚ) < 10 * n),
        div_le_iff₀ (by positivity)]
      linarith

/-- The rate of the empty collection, of the seed records, and of a
collection of one record out of sixteen completed, where the exact rate 6.25
lies half way between two tenths. -/
theorem completionRate_rounded_witness :
    completionRate ⟨[], 4⟩ = "0%" ∧
    completionRate (initialStore "a" "b" "c") = "33.3%" ∧
    (∃ k : Nat,
      completionRate (initialStore "a" "b" "c")
        = Nat.repr (k / 10) ++ "." ++ Nat.repr (k % 10) ++ "%" ∧
      |(k : ℚ) / 10 - 100 * ((initialStore "a" "b" "c").tasks.countP
          (fun t => t.completed) : ℚ) / (initialStore "a" "b" "c").tasks.length| ≤ 1 / 20) :=
  ⟨(completionRate_rounded ⟨[], 4⟩).1 rfl,
   (completionRate_rounded (initialStore "a" "b" "c")).2.2.1 "a" "b" "c",
   (completionRate_rounded (initialStore "a" "b" "c")).2.1
     (List.cons_ne_nil _ _) (by decide)⟩

end TaskApi
